import Mathlib

/-!
Shallow embedding of the ICPC scoreboard system (src/main.cpp) and proofs
about its ranking comparator, freeze/scroll reveal algorithm, submission
handling and queries.

The C++ program keeps `std::map<string, Team>` registries; these are embedded
as association lists with C++ `operator[]` (default-inserting) semantics made
explicit.  `std::sort` with a strict comparator is embedded as an insertion
sort by the same comparator: with the strict total comparator used by the
program the sorted permutation is unique, so this captures the observable
behaviour of `std::sort`.  Stats fields written back by
`calculate_team_stats` are recomputed before every read in the C++ code, so
the comparator is embedded as a pure function.
-/

namespace ICPC

/-- Lexicographic comparison of character lists: the order of C++
`std::string::operator<`. -/
def charListLt : List Char → List Char → Bool
  | _, [] => false
  | [], _ :: _ => true
  | a :: as, b :: bs => if a < b then true else if b < a then false else charListLt as bs

/-- C++ `std::string` less-than. -/
def strLt (a b : String) : Bool := charListLt a.data b.data

/-- Insert an element into a list ordered by a boolean comparator. -/
def insertCmp (cmp : α → α → Bool) (a : α) : List α → List α
  | [] => [a]
  | b :: bs => if cmp a b then a :: b :: bs else b :: insertCmp cmp a bs

/-- Sorting by a boolean comparator (the observable behaviour of `std::sort`
with a strict total comparator: the unique sorted permutation). -/
def sortCmp (cmp : α → α → Bool) : List α → List α
  | [] => []
  | a :: as => insertCmp cmp a (sortCmp cmp as)

/-- Lookup in an association list (C++ `std::map::find` / `count`). -/
def mapFind : List (String × β) → String → Option β
  | [], _ => none
  | (k', v) :: rest, k => if k' = k then some v else mapFind rest k

/-- Update-or-append in an association list: the effect of writing through
C++ `std::map::operator[]`. -/
def mapSet : List (String × β) → String → β → List (String × β)
  | [], k, v => [(k, v)]
  | (k', v') :: rest, k, v => if k' = k then (k, v) :: rest else (k', v') :: mapSet rest k v

/-- Read through C++ `std::map::operator[]`: the stored value, or a
default-constructed one. -/
def mapGetD (m : List (String × β)) (k : String) (d : β) : β := (mapFind m k).getD d

/-- C++ `std::map::count(k) != 0`. -/
def mapContains (m : List (String × β)) (k : String) : Bool := (mapFind m k).isSome

/-- C++ struct Submission. -/
structure Submission where
  problem : String
  status : String
  time : Nat
  before_freeze : Bool
deriving DecidableEq

/-- C++ struct ProblemStatus with its default constructor values. -/
structure ProblemStatus where
  solved : Bool := false
  solve_time : Nat := 0
  wrong_attempts_before_first_success : Nat := 0
  wrong_attempts_before_freeze : Nat := 0
  submissions_after_freeze : Nat := 0
  frozen : Bool := false
deriving DecidableEq

instance : Inhabited ProblemStatus := ⟨{}⟩

/-- C++ struct Team with its default constructor values. -/
structure Team where
  name : String := ""
  problems : List (String × ProblemStatus) := []
  submissions : List Submission := []
  solved_count : Nat := 0
  penalty_time : Nat := 0
  ranking : Nat := 0
  solve_times : List Nat := []
deriving DecidableEq

instance : Inhabited Team := ⟨{}⟩

/-- The private state of C++ class ICPCSystem. -/
structure ICPCSystem where
  teams : List (String × Team) := []
  team_order : List String := []
  competition_started : Bool := false
  is_frozen : Bool := false
  duration_time : Nat := 0
  problem_count : Nat := 0
  problem_names : List String := []
  freeze_time : Nat := 0
deriving DecidableEq

/-- `teams[n]` read (the comparator and rank writer only ever receive names
already present, so the default-insert of `operator[]` is unobservable). -/
def getTeam (s : ICPCSystem) (n : String) : Team := mapGetD s.teams n {}

/-- `team.problems[p]` read. -/
def getPS (t : Team) (p : String) : ProblemStatus := mapGetD t.problems p {}

/-- The visibility test of `calculate_team_stats`:
`ps.solved && (!ps.frozen || include_frozen)`. -/
def statVisible (include_frozen : Bool) (ps : ProblemStatus) : Bool :=
  ps.solved && (!ps.frozen || include_frozen)

/-- C++ `ICPCSystem::calculate_team_stats`: recompute solved count, penalty
time and the descending solve-time profile from the problem map. -/
def calculate_team_stats (t : Team) (include_frozen : Bool) : Team :=
  let vis := t.problems.filter (fun q => statVisible include_frozen q.2)
  { t with
    solved_count := vis.length
    penalty_time :=
      (vis.map (fun q => q.2.solve_time + 20 * q.2.wrong_attempts_before_first_success)).sum
    solve_times := sortCmp (fun a b => decide (b < a)) (vis.map (fun q => q.2.solve_time)) }

/-- The first differing pair of two solve-time profiles, scanning the shared
indices: the loop `for i < min(size1, size2)` of `compare_teams`. -/
def firstDiff : List Nat → List Nat → Option (Nat × Nat)
  | a :: as, b :: bs => if a = b then firstDiff as bs else some (a, b)
  | _, _ => none

/-- C++ `ICPCSystem::compare_teams`. -/
def compare_teams (s : ICPCSystem) (name1 name2 : String) (include_frozen : Bool) : Bool :=
  let t1 := calculate_team_stats (getTeam s name1) include_frozen
  let t2 := calculate_team_stats (getTeam s name2) include_frozen
  if t1.solved_count ≠ t2.solved_count then decide (t1.solved_count > t2.solved_count)
  else if t1.penalty_time ≠ t2.penalty_time then decide (t1.penalty_time < t2.penalty_time)
  else
    match firstDiff t1.solve_times t2.solve_times with
    | some (a, b) => decide (a < b)
    | none => strLt name1 name2

/-- The rank-assignment loop `teams[sorted_teams[i]].ranking = i + 1`. -/
def assignRanks : List (String × Team) → List String → Nat → List (String × Team)
  | tm, [], _ => tm
  | tm, n :: rest, i => assignRanks (mapSet tm n { mapGetD tm n {} with ranking := i }) rest (i + 1)

/-- C++ `ICPCSystem::flush_scoreboard`. -/
def flush_scoreboard (s : ICPCSystem) : ICPCSystem :=
  let sorted := sortCmp (fun a b => compare_teams s a b false) s.team_order
  { s with teams := assignRanks s.teams sorted 1 }

/-- C++ `ICPCSystem::add_team` (errors leave the state unchanged). -/
def add_team (s : ICPCSystem) (team_name : String) : ICPCSystem :=
  if s.competition_started then s
  else if mapContains s.teams team_name then s
  else
    { s with
      teams := mapSet s.teams team_name { ({} : Team) with name := team_name }
      team_order := s.team_order ++ [team_name] }

/-- C++ `ICPCSystem::start_competition` (errors leave the state unchanged). -/
def start_competition (s : ICPCSystem) (duration problems : Nat) : ICPCSystem :=
  if s.competition_started then s
  else
    { s with
      competition_started := true
      duration_time := duration
      problem_count := problems
      problem_names :=
        s.problem_names ++ (List.range problems).map
          (fun i => String.mk [Char.ofNat ('A'.toNat + i)])
      teams := assignRanks s.teams (sortCmp strLt s.team_order) 1 }

/-- C++ `ICPCSystem::submit`.  `teams[team_name]` and `team.problems[problem]`
default-insert absent entries, which this embedding reproduces via
`mapSet` at the end. -/
def submit (s : ICPCSystem) (problem team_name status : String) (time : Nat) : ICPCSystem :=
  let team := getTeam s team_name
  let ps := getPS team problem
  let sub : Submission :=
    { problem := problem, status := status, time := time, before_freeze := !s.is_frozen }
  let ps' :=
    if s.is_frozen then
      if ps.solved = false then
        { ps with frozen := true, submissions_after_freeze := ps.submissions_after_freeze + 1 }
      else ps
    else
      if ps.solved = false then
        if status = "Accepted" then
          { ps with
            solved := true
            solve_time := time
            wrong_attempts_before_first_success := ps.wrong_attempts_before_freeze }
        else { ps with wrong_attempts_before_freeze := ps.wrong_attempts_before_freeze + 1 }
      else ps
  let team' :=
    { team with
      submissions := team.submissions ++ [sub]
      problems := mapSet team.problems problem ps' }
  { s with teams := mapSet s.teams team_name team' }

/-- C++ `ICPCSystem::freeze` (errors leave the state unchanged; the loop in
the body only contains a comment and mutates nothing). -/
def freeze (s : ICPCSystem) : ICPCSystem :=
  if s.is_frozen then s else { s with is_frozen := true, freeze_time := 0 }

/-- The frozen-submission replay loop inside `ICPCSystem::scroll`, carrying
the `additional_wrong_attempts` accumulator. -/
def process_frozen_subs (subs : List Submission) (p : String) (ps : ProblemStatus)
    (additional : Nat) : ProblemStatus × Nat :=
  match subs with
  | [] => (ps, additional)
  | sub :: rest =>
    if sub.problem = p ∧ sub.before_freeze = false then
      if ps.solved = false then
        if sub.status = "Accepted" then
          process_frozen_subs rest p
            { ps with
              solved := true
              solve_time := sub.time
              wrong_attempts_before_first_success :=
                ps.wrong_attempts_before_freeze + additional }
            additional
        else process_frozen_subs rest p ps (additional + 1)
      else process_frozen_subs rest p ps additional
    else process_frozen_subs rest p ps additional

/-- Revealing one frozen problem inside `ICPCSystem::scroll`: clear the flag,
replay the frozen-window submissions, and fold leftover wrong attempts into
the pre-freeze counter when the problem stays unsolved. -/
def reveal_problem (ps0 : ProblemStatus) (subs : List Submission) (p : String) : ProblemStatus :=
  let ps := { ps0 with frozen := false }
  let r := process_frozen_subs subs p ps 0
  if r.1.solved then r.1
  else { r.1 with wrong_attempts_before_freeze := r.1.wrong_attempts_before_freeze + r.2 }

/-- `has_frozen` test of the scroll loop. -/
def hasFrozen (t : Team) : Bool := t.problems.any (fun q => q.2.frozen)

/-- The backwards scan of `sorted_teams` for the lowest-ranked team that
still has a frozen problem. -/
def pickLowest (s : ICPCSystem) (sorted : List String) : Option String :=
  sorted.reverse.find? (fun n => hasFrozen (getTeam s n))

/-- A rank-change notification line emitted by the scroll loop. -/
structure Notification where
  team : String
  replaced : String
  solved_count : Nat
  penalty_time : Nat
deriving DecidableEq

/-- The first frozen problem of a team in the fixed problem order (the
`unfreeze_problem` scan; `""` when no configured problem of the team is
frozen, in which case the C++ loop spins on `team.problems[""]`). -/
def unfreezeProblemOf (s : ICPCSystem) (t : String) : String :=
  (s.problem_names.find? (fun p => (getPS (getTeam s t) p).frozen)).getD ""

/-- The state after revealing the chosen problem of the chosen team (lines
296-319 of the scroll loop body), before the ranking pass. -/
def revealState (s : ICPCSystem) (t : String) : ICPCSystem :=
  let team := getTeam s t
  let p := unfreezeProblemOf s t
  let ps' := reveal_problem (getPS team p) team.submissions p
  { s with teams := mapSet s.teams t { team with problems := mapSet team.problems p ps' } }

/-- One iteration of the `while (true)` loop of `ICPCSystem::scroll`:
`none` when no team holds a frozen problem (the `break`), otherwise the
post-iteration state and the optionally emitted notification. -/
def scroll_step (s : ICPCSystem) : Option (ICPCSystem × Option Notification) :=
  let sorted := sortCmp (fun a b => compare_teams s a b false) s.team_order
  match pickLowest s sorted with
  | none => none
  | some lowest_team =>
    let old_rank := (getTeam s lowest_team).ranking
    let s2 := flush_scoreboard (revealState s lowest_team)
    let new_rank := (getTeam s2 lowest_team).ranking
    if new_rank < old_rank then
      let replaced :=
        (sorted.find? (fun n =>
          decide ((getTeam s n).ranking = new_rank ∧ ¬n = lowest_team))).getD ""
      let tstats := calculate_team_stats (getTeam s2 lowest_team) false
      some (s2, some { team := lowest_team, replaced := replaced,
                       solved_count := tstats.solved_count,
                       penalty_time := tstats.penalty_time })
    else some (s2, none)

/-- Number of currently frozen problem entries of one team. -/
def frozenCount (t : Team) : Nat := (t.problems.filter (fun q => q.2.frozen)).length

/-- Number of currently frozen problem entries over the registered teams:
the termination measure of the scroll loop. -/
def frozenTotal (s : ICPCSystem) : Nat :=
  (s.team_order.map (fun n => frozenCount (getTeam s n))).sum

/-- The scroll loop as fuelled iteration of `scroll_step`; the boolean
records whether the loop genuinely reached its `break` (the C++ loop is
unbounded; `frozenTotal + 1` fuel is proved sufficient below). -/
def scroll_loop : Nat → ICPCSystem → List Notification →
    ICPCSystem × List Notification × Bool
  | 0, s, acc => (s, acc, false)
  | fuel + 1, s, acc =>
    match scroll_step s with
    | none => (s, acc, true)
    | some (s', notif) => scroll_loop fuel s' (acc ++ notif.toList)

/-- Zero the frozen-window attempt counters of one team (the inner loop of
the reset at the end of `ICPCSystem::scroll`). -/
def resetTeamCounts (t : Team) : Team :=
  { t with
    problems := t.problems.map
      (fun e => (e.1, { e.2 with submissions_after_freeze := 0 })) }

/-- The counter reset at the end of `ICPCSystem::scroll`. -/
def resetAfterFreezeCounts (tm : List (String × Team)) : List (String × Team) :=
  tm.map (fun q => (q.1, resetTeamCounts q.2))

/-- C++ `ICPCSystem::scroll`: `none` on the not-frozen error, otherwise the
final state, the emitted notifications in order, and the loop-completion
flag of `scroll_loop`. -/
def scroll (s : ICPCSystem) : Option (ICPCSystem × List Notification × Bool) :=
  if s.is_frozen = false then none
  else
    let s1 := flush_scoreboard s
    let r := scroll_loop (frozenTotal s1 + 1) s1 []
    some ({ r.1 with is_frozen := false, teams := resetAfterFreezeCounts r.1.teams },
          r.2.1, r.2.2)

/-- C++ `ICPCSystem::query_ranking`: `none` on the unknown-team error,
otherwise the stored rank and whether the frozen warning is printed. -/
def query_ranking (s : ICPCSystem) (team_name : String) : Option (Nat × Bool) :=
  if mapContains s.teams team_name then
    some ((getTeam s team_name).ranking, s.is_frozen)
  else none

/-- The filter test of `ICPCSystem::query_submission`. -/
def subMatches (problem status : String) (sub : Submission) : Bool :=
  (decide (problem = "ALL") || decide (sub.problem = problem)) &&
    (decide (status = "ALL") || decide (sub.status = status))

/-- C++ `ICPCSystem::query_submission`: `none` on the unknown-team error;
`some none` when no entry matches; the backwards index loop is the forward
scan of the reversed history. -/
def query_submission (s : ICPCSystem) (team_name problem status : String) :
    Option (Option Submission) :=
  if mapContains s.teams team_name then
    some (((getTeam s team_name).submissions.reverse).find? (subMatches problem status))
  else none

/-- One problem cell of a scoreboard row in `ICPCSystem::print_scoreboard`
(`none` = the team has no entry for this problem). -/
def problemCell (entry : Option ProblemStatus) : String :=
  match entry with
  | none => "."
  | some ps =>
    if ps.frozen then
      (if ps.wrong_attempts_before_freeze = 0 then "" else "-") ++
        Nat.repr ps.wrong_attempts_before_freeze ++ "/" ++
          Nat.repr ps.submissions_after_freeze
    else if ps.solved then
      "+" ++
        (if ps.wrong_attempts_before_first_success > 0 then
          Nat.repr ps.wrong_attempts_before_first_success
        else "")
    else if ps.wrong_attempts_before_freeze = 0 then "."
    else "-" ++ Nat.repr ps.wrong_attempts_before_freeze

/-- The comparison chain of `compare_teams` as a function of the two stat
tuples; `compare_teams` is definitionally this applied to the recomputed
stats. -/
def cmpKey (sc1 pt1 : Nat) (st1 : List Nat) (n1 : String)
    (sc2 pt2 : Nat) (st2 : List Nat) (n2 : String) : Bool :=
  if sc1 ≠ sc2 then decide (sc1 > sc2)
  else if pt1 ≠ pt2 then decide (pt1 < pt2)
  else
    match firstDiff st1 st2 with
    | some (a, b) => decide (a < b)
    | none => strLt n1 n2

/-- The rank `flush_scoreboard` gives a registered team: one more than the
number of teams ordered ahead of it by the comparator. -/
def flushRankValue (s : ICPCSystem) (n : String) : Nat :=
  1 + s.team_order.countP (fun m => compare_teams s m n false)

/-- The stored `ranking` fields agree with a fresh exclude-frozen Ranker
pass; holds after every `flush_scoreboard` and at every scroll iteration. -/
def rankConsistent (s : ICPCSystem) : Prop :=
  ∀ n ∈ s.team_order, (getTeam s n).ranking = flushRankValue s n

/-- Registered teams have duplicate-free problem keys (true of every
reachable state, where problem maps are C++ `std::map`s). -/
def problemsWF (s : ICPCSystem) : Prop :=
  ∀ n ∈ s.team_order, ((getTeam s n).problems.map Prod.fst).Nodup

/-- Frozen problem entries of registered teams are named by configured
problems (true of every validated event sequence). -/
def frozenWF (s : ICPCSystem) : Prop :=
  ∀ n ∈ s.team_order, ∀ e ∈ (getTeam s n).problems, e.2.frozen = true → e.1 ∈ s.problem_names

/-- The well-formedness the scroll loop relies on. -/
def scrollWF (s : ICPCSystem) : Prop :=
  s.team_order.Nodup ∧ problemsWF s ∧ frozenWF s

/-- Claim C4 as stated: across one reveal iteration of a scroll run, no
registered team's rank number grows. -/
def claimC4Prop : Prop :=
  ∀ (s s' : ICPCSystem) (nt : Option Notification), scroll_step s = some (s', nt) →
    ∀ n ∈ s.team_order, (getTeam s' n).ranking ≤ (getTeam s n).ranking

/-- The hidden-cell format claimed for a frozen problem (claim C9):
pre-freeze wrong attempts, rendered empty when 0, then a slash and the
frozen-window attempt count.  (The claim's two cited spec forms differ only
in a leading minus sign, covered below by a disjunction.) -/
def specFrozenCellClaim (ps : ProblemStatus) : String :=
  (if ps.wrong_attempts_before_freeze = 0 then ""
    else Nat.repr ps.wrong_attempts_before_freeze) ++
    "/" ++ Nat.repr ps.submissions_after_freeze

/-- Claim C9 as stated: a frozen cell is rendered in the claimed hidden
format, with or without the leading minus of the spec's second form. -/
def claimC9Prop : Prop :=
  ∀ ps : ProblemStatus, ps.frozen = true →
    problemCell (some ps) = specFrozenCellClaim ps ∨
      problemCell (some ps) = "-" ++ specFrozenCellClaim ps

/-- The hidden-cell format the code actually produces (amended claim C9):
the digit 0 is printed when there are no pre-freeze wrong attempts, and a
minus sign precedes a nonzero count. -/
def specFrozenCellAmended (ps : ProblemStatus) : String :=
  (if ps.wrong_attempts_before_freeze = 0 then "0"
    else "-" ++ Nat.repr ps.wrong_attempts_before_freeze) ++
    "/" ++ Nat.repr ps.submissions_after_freeze

/-- The frozen problem status used by the C9 counterexample: no pre-freeze
wrong attempts, two frozen-window submissions. -/
def c9ps : ProblemStatus := { frozen := true, submissions_after_freeze := 2 }

/-- Two registered teams. -/
def exInit : ICPCSystem := add_team (add_team {} "Alice") "Bob"

/-- Competition started with problems A and B. -/
def exStarted : ICPCSystem := start_competition exInit 120 2

/-- Bob solves A at minute 10, then the scoreboard freezes. -/
def exPre : ICPCSystem := freeze (submit exStarted "A" "Bob" "Accepted" 10)

/-- Alice solves A at minute 5 during the frozen window. -/
def exFrozen : ICPCSystem := submit exPre "A" "Alice" "Accepted" 5

/-- The state after the pre-scroll ranking pass: Bob rank 1, Alice rank 2,
Alice holding a frozen result. -/
def exFlushed : ICPCSystem := flush_scoreboard exFrozen

/-- The result of the first scroll iteration on `exFlushed` (it is `some`,
proved where used). -/
def exStep : ICPCSystem × Option Notification :=
  (scroll_step exFlushed).getD (exFlushed, none)

/-- A pre-freeze problem status with one wrong attempt, frozen afterwards. -/
def c2ps : ProblemStatus := { wrong_attempts_before_freeze := 1, frozen := true }

/-- A frozen-window history: one more rejection on B, then an accept on B at
minute 30, and an unrelated pre-freeze submission to A. -/
def c2subs : List Submission :=
  [{ problem := "A", status := "Accepted", time := 3, before_freeze := true },
   { problem := "B", status := "Wrong_Answer", time := 20, before_freeze := false },
   { problem := "B", status := "Accepted", time := 30, before_freeze := false }]

/-- One registered team, competition started with three problems. -/
def ghInit : ICPCSystem := start_competition (add_team {} "Apple") 100 3

/-- A submission naming the never-registered team Ghost, violating submit's
validation assumption. -/
def ghState : ICPCSystem := submit ghInit "A" "Ghost" "Wrong_Answer" 5

/-! ### Order properties of the string comparison -/

theorem charListLt_irrefl (l : List Char) : charListLt l l = false := by
  induction l with
  | nil => rfl
  | cons a as ih => simp [charListLt, ih]

theorem charListLt_asymm : ∀ {x y : List Char},
    charListLt x y = true → charListLt y x = false
  | [], [], h => by simp [charListLt] at h
  | [], _ :: _, _ => rfl
  | _ :: _, [], h => by simp [charListLt] at h
  | a :: as, b :: bs, h => by
    simp only [charListLt] at h ⊢
    by_cases hab : a < b
    · rw [if_neg (lt_asymm hab), if_pos hab]
    · by_cases hba : b < a
      · rw [if_neg hab, if_pos hba] at h
        exact absurd h (by simp)
      · have hch : a = b := le_antisymm (not_lt.mp hba) (not_lt.mp hab)
        subst hch
        simp only [if_neg hab] at h ⊢
        exact charListLt_asymm h

theorem charListLt_total : ∀ {x y : List Char}, x ≠ y →
    charListLt x y = true ∨ charListLt y x = true
  | [], [], h => absurd rfl h
  | [], _ :: _, _ => Or.inl rfl
  | _ :: _, [], _ => Or.inr rfl
  | a :: as, b :: bs, h => by
    simp only [charListLt]
    by_cases hab : a < b
    · left; rw [if_pos hab]
    · by_cases hba : b < a
      · right; rw [if_pos hba]
      · have hch : a = b := le_antisymm (not_lt.mp hba) (not_lt.mp hab)
        subst hch
        have hne : as ≠ bs := fun he => h (by rw [he])
        simp only [if_neg hab]
        exact charListLt_total hne

theorem charListLt_trans : ∀ {x y z : List Char},
    charListLt x y = true → charListLt y z = true → charListLt x z = true
  | _, [], _, h1, _ => by simp [charListLt] at h1
  | _, _ :: _, [], _, h2 => by simp [charListLt] at h2
  | [], _ :: _, _ :: _, _, _ => rfl
  | a :: as, b :: bs, c :: cs, h1, h2 => by
    simp only [charListLt] at h1 h2 ⊢
    by_cases hab : a < b
    · by_cases hbc : b < c
      · rw [if_pos (lt_trans hab hbc)]
      · by_cases hcb : c < b
        · rw [if_neg hbc, if_pos hcb] at h2
          exact absurd h2 (by simp)
        · have hch : b = c := le_antisymm (not_lt.mp hcb) (not_lt.mp hbc)
          subst hch
          rw [if_pos hab]
    · by_cases hba : b < a
      · rw [if_neg hab, if_pos hba] at h1
        exact absurd h1 (by simp)
      · have hch : a = b := le_antisymm (not_lt.mp hba) (not_lt.mp hab)
        subst hch
        simp only [if_neg hab] at h1
        by_cases hac : a < c
        · rw [if_pos hac]
        · by_cases hca : c < a
          · rw [if_neg hac, if_pos hca] at h2
            exact absurd h2 (by simp)
          · have hch2 : a = c := le_antisymm (not_lt.mp hca) (not_lt.mp hac)
            subst hch2
            simp only [if_neg hac] at h2 ⊢
            exact charListLt_trans h1 h2

theorem string_data_inj {a b : String} (h : a.data = b.data) : a = b := by
  cases a
  cases b
  exact congrArg String.mk h

theorem strLt_irrefl (a : String) : strLt a a = false := charListLt_irrefl _

theorem strLt_asymm {a b : String} (h : strLt a b = true) : strLt b a = false :=
  charListLt_asymm h

theorem strLt_total {a b : String} (h : a ≠ b) : strLt a b = true ∨ strLt b a = true :=
  charListLt_total (fun hd => h (string_data_inj hd))

theorem strLt_trans {a b c : String} (h1 : strLt a b = true) (h2 : strLt b c = true) :
    strLt a c = true := charListLt_trans h1 h2

/-! ### Properties of the profile comparison -/

theorem firstDiff_self : ∀ (as : List Nat), firstDiff as as = none
  | [] => rfl
  | a :: as => by simp [firstDiff, firstDiff_self as]

theorem firstDiff_ne : ∀ {as bs : List Nat} {a b : Nat},
    firstDiff as bs = some (a, b) → a ≠ b
  | [], _, _, _, h => by simp [firstDiff] at h
  | _ :: _, [], _, _, h => by simp [firstDiff] at h
  | x :: as, y :: bs, a, b, h => by
    simp only [firstDiff] at h
    by_cases hxy : x = y
    · rw [if_pos hxy] at h; exact firstDiff_ne h
    · rw [if_neg hxy] at h
      cases h; simpa using hxy

theorem firstDiff_swap : ∀ {as bs : List Nat} {a b : Nat},
    firstDiff as bs = some (a, b) → firstDiff bs as = some (b, a)
  | [], _, _, _, h => by simp [firstDiff] at h
  | _ :: _, [], _, _, h => by simp [firstDiff] at h
  | x :: as, y :: bs, a, b, h => by
    simp only [firstDiff] at h ⊢
    by_cases hxy : x = y
    · rw [if_pos hxy] at h
      rw [if_pos hxy.symm]
      exact firstDiff_swap h
    · rw [if_neg hxy] at h
      rw [if_neg (Ne.symm hxy)]
      cases h; rfl

theorem firstDiff_none_symm : ∀ {as bs : List Nat},
    firstDiff as bs = none → firstDiff bs as = none
  | [], [], _ => rfl
  | [], _ :: _, _ => rfl
  | _ :: _, [], _ => rfl
  | x :: as, y :: bs, h => by
    simp only [firstDiff] at h ⊢
    by_cases hxy : x = y
    · rw [if_pos hxy] at h
      rw [if_pos hxy.symm]
      exact firstDiff_none_symm h
    · rw [if_neg hxy] at h; cases h

theorem firstDiff_eq_of_none : ∀ {as bs : List Nat}, as.length = bs.length →
    firstDiff as bs = none → as = bs
  | [], [], _, _ => rfl
  | [], _ :: _, hl, _ => by simp at hl
  | _ :: _, [], hl, _ => by simp at hl
  | x :: as, y :: bs, hl, h => by
    simp only [firstDiff] at h
    by_cases hxy : x = y
    · rw [if_pos hxy] at h
      rw [hxy, firstDiff_eq_of_none (by simpa using hl) h]
    · rw [if_neg hxy] at h; cases h

theorem firstDiff_trans_lt : ∀ {as bs cs : List Nat} {x y u v : Nat},
    firstDiff as bs = some (x, y) → x < y →
    firstDiff bs cs = some (u, v) → u < v →
    ∃ w z, firstDiff as cs = some (w, z) ∧ w < z
  | [], _, _, _, _, _, _, h1, _, _, _ => by simp [firstDiff] at h1
  | _ :: _, [], _, _, _, _, _, h1, _, _, _ => by simp [firstDiff] at h1
  | _ :: _, _ :: _, [], _, _, _, _, _, _, h2, _ => by simp [firstDiff] at h2
  | a :: as, b :: bs, c :: cs, x, y, u, v, h1, hxy, h2, huv => by
    simp only [firstDiff] at h1 h2 ⊢
    by_cases hab : a = b
    · rw [if_pos hab] at h1
      by_cases hbc : b = c
      · rw [if_pos hbc] at h2
        rw [if_pos (hab.trans hbc)]
        exact firstDiff_trans_lt h1 hxy h2 huv
      · rw [if_neg hbc] at h2
        cases h2
        have hac : ¬a = c := by rw [hab]; exact hbc
        rw [if_neg hac]
        exact ⟨a, c, rfl, by rw [hab]; exact huv⟩
    · rw [if_neg hab] at h1
      cases h1
      by_cases hbc : b = c
      · have hac : ¬a = c := by rw [← hbc]; exact hab
        rw [if_neg hac]
        exact ⟨a, c, rfl, by rw [← hbc]; exact hxy⟩
      · rw [if_neg hbc] at h2
        cases h2
        have hac : a < c := lt_trans hxy huv
        rw [if_neg (Nat.ne_of_lt hac)]
        exact ⟨a, c, rfl, hac⟩

/-! ### The comparator sort: permutation and sortedness -/

theorem insertCmp_perm (cmp : α → α → Bool) (a : α) :
    ∀ l : List α, (insertCmp cmp a l).Perm (a :: l)
  | [] => List.Perm.refl _
  | b :: bs => by
    simp only [insertCmp]
    by_cases h : cmp a b = true
    · rw [if_pos h]
    · rw [if_neg h]
      exact ((insertCmp_perm cmp a bs).cons b).trans (List.Perm.swap a b bs)

theorem sortCmp_perm (cmp : α → α → Bool) : ∀ l : List α, (sortCmp cmp l).Perm l
  | [] => List.Perm.refl _
  | a :: as => (insertCmp_perm cmp a (sortCmp cmp as)).trans ((sortCmp_perm cmp as).cons a)

theorem pairwise_insertCmp {cmp : α → α → Bool} {a : α} : ∀ {l : List α},
    (∀ x y z, x ∈ a :: l → y ∈ a :: l → z ∈ a :: l →
      cmp x y = true → cmp y z = true → cmp x z = true) →
    (∀ x ∈ l, cmp a x = true ∨ cmp x a = true) →
    l.Pairwise (fun x y => cmp x y = true) →
    (insertCmp cmp a l).Pairwise (fun x y => cmp x y = true)
  | [], _, _, _ => List.pairwise_singleton _ a
  | b :: bs, htr, htot, hp => by
    rcases List.pairwise_cons.mp hp with ⟨hb, hbs⟩
    simp only [insertCmp]
    by_cases h : cmp a b = true
    · rw [if_pos h]
      refine List.pairwise_cons.mpr ⟨?_, hp⟩
      intro x hx
      rcases List.mem_cons.mp hx with hxb | hxbs
      · subst hxb; exact h
      · exact htr a b x (by simp) (by simp) (by simp [hxbs]) h (hb x hxbs)
    · rw [if_neg h]
      have hba : cmp b a = true := by
        rcases htot b (by simp) with hc | hc
        · exact absurd hc h
        · exact hc
      refine List.pairwise_cons.mpr ⟨?_, ?_⟩
      · intro x hx
        have hx' : x ∈ a :: bs := (insertCmp_perm cmp a bs).mem_iff.mp hx
        rcases List.mem_cons.mp hx' with hxa | hxbs
        · subst hxa; exact hba
        · exact hb x hxbs
      · exact pairwise_insertCmp
          (fun x y z hx hy hz => htr x y z
            (by rcases List.mem_cons.mp hx with h1 | h1 <;> simp [h1])
            (by rcases List.mem_cons.mp hy with h1 | h1 <;> simp [h1])
            (by rcases List.mem_cons.mp hz with h1 | h1 <;> simp [h1]))
          (fun x hx => htot x (by simp [hx])) hbs

theorem pairwise_sortCmp {cmp : α → α → Bool} : ∀ {l : List α},
    (∀ x y z, x ∈ l → y ∈ l → z ∈ l →
      cmp x y = true → cmp y z = true → cmp x z = true) →
    (∀ x y, x ∈ l → y ∈ l → x ≠ y → cmp x y = true ∨ cmp y x = true) →
    l.Nodup →
    (sortCmp cmp l).Pairwise (fun x y => cmp x y = true)
  | [], _, _, _ => List.Pairwise.nil
  | a :: as, htr, htot, hnd => by
    rcases List.nodup_cons.mp hnd with ⟨ha, hnd'⟩
    have hmem : ∀ x ∈ sortCmp cmp as, x ∈ as :=
      fun x hx => (sortCmp_perm cmp as).mem_iff.mp hx
    have hconv : ∀ x, x ∈ a :: sortCmp cmp as → x ∈ a :: as := by
      intro x hx
      rcases List.mem_cons.mp hx with h1 | h1
      · simp [h1]
      · simp [hmem _ h1]
    refine pairwise_insertCmp ?_ ?_ ?_
    · intro x y z hx hy hz
      exact htr x y z (hconv x hx) (hconv y hy) (hconv z hz)
    · intro x hx
      have hx' : x ∈ as := hmem x hx
      exact htot a x (by simp) (by simp [hx']) (fun he => ha (he ▸ hx'))
    · exact pairwise_sortCmp
        (fun x y z hx hy hz => htr x y z (by simp [hx]) (by simp [hy]) (by simp [hz]))
        (fun x y hx hy => htot x y (by simp [hx]) (by simp [hy])) hnd'

/-- In a list sorted by a comparator that is asymmetric on its elements,
the position of an element equals the number of elements the comparator
places ahead of it. -/
theorem pairwise_indexOf_eq_countP {cmp : α → α → Bool} [DecidableEq α] :
    ∀ {L : List α},
    L.Pairwise (fun x y => cmp x y = true) →
    (∀ x y, x ∈ L → y ∈ L → cmp x y = true → cmp y x = false) →
    ∀ {n : α}, n ∈ L → L.indexOf n = L.countP (fun m => cmp m n)
  | [], _, _, _, hn => absurd hn (List.not_mem_nil _)
  | m :: rest, hp, hasym, n, hn => by
    rcases List.pairwise_cons.mp hp with ⟨hm, hrest⟩
    by_cases h : m = n
    · subst h
      rw [List.indexOf_cons_self]
      have h1 : cmp m m = false := by
        by_cases hc : cmp m m = true
        · exact hasym m m (by simp) (by simp) hc
        · exact Bool.eq_false_iff.mpr hc
      rw [List.countP_cons_of_neg _ _ (by simp [h1])]
      symm
      rw [List.countP_eq_zero]
      intro x hx
      rw [hasym m x (by simp) (by simp [hx]) (hm x hx)]
      simp
    · have hn' : n ∈ rest := by
        rcases List.mem_cons.mp hn with h1 | h1
        · exact absurd h1.symm h
        · exact h1
      have hmn : cmp m n = true := hm n hn'
      rw [List.indexOf_cons_ne _ h, List.countP_cons_of_pos _ _ (by simp [hmn])]
      rw [pairwise_indexOf_eq_countP hrest
        (fun x y hx hy => hasym x y (by simp [hx]) (by simp [hy])) hn']

/-! ### Association-list lemmas -/

theorem mapFind_mapSet_self (m : List (String × β)) (k : String) (v : β) :
    mapFind (mapSet m k v) k = some v := by
  induction m with
  | nil => simp [mapSet, mapFind]
  | cons p rest ih =>
    obtain ⟨k', v'⟩ := p
    by_cases h : k' = k
    · simp [mapSet, h, mapFind]
    · simp [mapSet, h, mapFind, ih]

theorem mapFind_mapSet_ne (m : List (String × β)) {k j : String} (v : β) (h : k ≠ j) :
    mapFind (mapSet m k v) j = mapFind m j := by
  induction m with
  | nil => simp [mapSet, mapFind, h]
  | cons p rest ih =>
    obtain ⟨k', v'⟩ := p
    by_cases hk : k' = k
    · subst hk
      simp [mapSet, mapFind, h]
    · simp [mapSet, hk, mapFind, ih]

theorem mapGetD_mapSet_self (m : List (String × β)) (k : String) (v d : β) :
    mapGetD (mapSet m k v) k d = v := by
  rw [mapGetD, mapFind_mapSet_self]
  rfl

theorem mapGetD_mapSet_ne (m : List (String × β)) {k j : String} (v d : β) (h : k ≠ j) :
    mapGetD (mapSet m k v) j d = mapGetD m j d := by
  rw [mapGetD, mapFind_mapSet_ne _ _ h]
  rfl

theorem assignRanks_not_mem :
    ∀ (tm : List (String × Team)) {L : List String} {n : String}, n ∉ L →
      ∀ i, mapFind (assignRanks tm L i) n = mapFind tm n
  | _, [], _, _, _ => rfl
  | tm, m :: rest, n, h, i => by
    have h1 : n ∉ rest := fun hc => h (List.mem_cons_of_mem _ hc)
    have h2 : m ≠ n := fun hc => h (hc ▸ List.mem_cons_self _ _)
    simp only [assignRanks]
    rw [assignRanks_not_mem _ h1, mapFind_mapSet_ne _ _ h2]

theorem assignRanks_mem :
    ∀ (tm : List (String × Team)) {L : List String}, L.Nodup → ∀ {n : String}, n ∈ L →
      ∀ i, mapFind (assignRanks tm L i) n =
        some { mapGetD tm n ({} : Team) with ranking := i + L.indexOf n }
  | _, [], _, n, hn, _ => absurd hn (List.not_mem_nil n)
  | tm, m :: rest, hnd, n, hn, i => by
    rcases List.nodup_cons.mp hnd with ⟨hm, hnd'⟩
    by_cases h : m = n
    · subst h
      simp only [assignRanks]
      rw [assignRanks_not_mem _ hm, mapFind_mapSet_self, List.indexOf_cons_self]
      simp
    · have hn' : n ∈ rest := by
        rcases List.mem_cons.mp hn with h1 | h1
        · exact absurd h1.symm h
        · exact h1
      simp only [assignRanks]
      rw [assignRanks_mem _ hnd' hn' (i + 1)]
      have hg : mapGetD (mapSet tm m { mapGetD tm m ({} : Team) with ranking := i }) n
          ({} : Team) = mapGetD tm n ({} : Team) := mapGetD_mapSet_ne _ _ _ h
      rw [hg]
      have hidx : i + 1 + List.indexOf n rest = i + List.indexOf n (m :: rest) := by
        rw [List.indexOf_cons_ne _ h]
        omega
      rw [hidx]

/-! ### The comparator is a strict total order on team names -/

theorem cmpKey_irrefl (sc pt : Nat) (st : List Nat) (n : String) :
    cmpKey sc pt st n sc pt st n = false := by
  simp [cmpKey, firstDiff_self, strLt_irrefl]

theorem cmpKey_asymm {sc1 pt1 sc2 pt2 : Nat} {st1 st2 : List Nat} {n1 n2 : String}
    (h : cmpKey sc1 pt1 st1 n1 sc2 pt2 st2 n2 = true) :
    cmpKey sc2 pt2 st2 n2 sc1 pt1 st1 n1 = false := by
  unfold cmpKey at h ⊢
  by_cases e1 : sc1 = sc2
  · subst e1
    rw [if_neg (by simp)] at h ⊢
    by_cases e2 : pt1 = pt2
    · subst e2
      rw [if_neg (by simp)] at h ⊢
      cases hfd : firstDiff st1 st2 with
      | none =>
        simp only [hfd] at h
        simp only [firstDiff_none_symm hfd]
        exact strLt_asymm h
      | some p =>
        obtain ⟨a, b⟩ := p
        simp only [hfd] at h
        simp only [firstDiff_swap hfd]
        simp only [decide_eq_true_eq] at h
        simp only [decide_eq_false_iff_not]
        omega
    · rw [if_pos e2] at h
      rw [if_pos (fun hc => e2 hc.symm)]
      simp only [decide_eq_true_eq] at h
      simp only [decide_eq_false_iff_not]
      omega
  · rw [if_pos e1] at h
    rw [if_pos (fun hc => e1 hc.symm)]
    simp only [decide_eq_true_eq] at h
    simp only [decide_eq_false_iff_not]
    omega

theorem cmpKey_total {sc1 pt1 sc2 pt2 : Nat} {st1 st2 : List Nat} {n1 n2 : String}
    (hne : n1 ≠ n2) :
    cmpKey sc1 pt1 st1 n1 sc2 pt2 st2 n2 = true ∨
      cmpKey sc2 pt2 st2 n2 sc1 pt1 st1 n1 = true := by
  unfold cmpKey
  by_cases e1 : sc1 = sc2
  · subst e1
    have hsc : ¬(sc1 ≠ sc1) := by simp
    rw [if_neg hsc, if_neg hsc]
    by_cases e2 : pt1 = pt2
    · subst e2
      have hpt : ¬(pt1 ≠ pt1) := by simp
      rw [if_neg hpt, if_neg hpt]
      cases hfd : firstDiff st1 st2 with
      | none =>
        simp only [hfd, firstDiff_none_symm hfd]
        exact strLt_total hne
      | some p =>
        obtain ⟨a, b⟩ := p
        simp only [hfd, firstDiff_swap hfd]
        have hab : a ≠ b := firstDiff_ne hfd
        simp only [decide_eq_true_eq]
        omega
    · rw [if_pos e2, if_pos (fun hc => e2 hc.symm)]
      simp only [decide_eq_true_eq]
      omega
  · rw [if_pos e1, if_pos (fun hc => e1 hc.symm)]
    simp only [decide_eq_true_eq]
    omega

theorem cmpKey_trans {sc1 pt1 sc2 pt2 sc3 pt3 : Nat} {st1 st2 st3 : List Nat}
    {n1 n2 n3 : String}
    (l1 : st1.length = sc1) (l2 : st2.length = sc2) (l3 : st3.length = sc3)
    (h1 : cmpKey sc1 pt1 st1 n1 sc2 pt2 st2 n2 = true)
    (h2 : cmpKey sc2 pt2 st2 n2 sc3 pt3 st3 n3 = true) :
    cmpKey sc1 pt1 st1 n1 sc3 pt3 st3 n3 = true := by
  unfold cmpKey at h1 h2 ⊢
  by_cases e12 : sc1 = sc2
  · subst e12
    rw [if_neg (by simp)] at h1
    by_cases e13 : sc1 = sc3
    · subst e13
      rw [if_neg (by simp)] at h2 ⊢
      by_cases p12 : pt1 = pt2
      · subst p12
        rw [if_neg (by simp)] at h1
        by_cases p13 : pt1 = pt3
        · subst p13
          rw [if_neg (by simp)] at h2 ⊢
          have hl12 : st1.length = st2.length := by omega
          have hl23 : st2.length = st3.length := by omega
          cases hfd12 : firstDiff st1 st2 with
          | none =>
            have hq : st1 = st2 := firstDiff_eq_of_none hl12 hfd12
            simp only [hfd12] at h1
            subst hq
            cases hfd13 : firstDiff st1 st3 with
            | none =>
              simp only [hfd13] at h2 ⊢
              exact strLt_trans h1 h2
            | some q =>
              simp only [hfd13] at h2 ⊢
              exact h2
          | some p =>
            obtain ⟨x, y⟩ := p
            simp only [hfd12, decide_eq_true_eq] at h1
            cases hfd23 : firstDiff st2 st3 with
            | none =>
              have hq : st2 = st3 := firstDiff_eq_of_none hl23 hfd23
              rw [← hq]
              simp only [hfd12, decide_eq_true_eq]
              exact h1
            | some q =>
              obtain ⟨u, v⟩ := q
              simp only [hfd23, decide_eq_true_eq] at h2
              obtain ⟨w, z, hw, hwz⟩ := firstDiff_trans_lt hfd12 h1 hfd23 h2
              simp only [hw, decide_eq_true_eq]
              exact hwz
        · rw [if_pos p13] at h2 ⊢
          exact h2
      · rw [if_pos p12] at h1
        simp only [decide_eq_true_eq] at h1
        by_cases p23 : pt2 = pt3
        · subst p23
          rw [if_pos p12]
          simp only [decide_eq_true_eq]
          exact h1
        · rw [if_pos p23] at h2
          simp only [decide_eq_true_eq] at h2
          rw [if_pos (show pt1 ≠ pt3 by omega)]
          simp only [decide_eq_true_eq]
          omega
    · rw [if_pos e13] at h2 ⊢
      exact h2
  · rw [if_pos e12] at h1
    simp only [decide_eq_true_eq] at h1
    by_cases e23 : sc2 = sc3
    · subst e23
      rw [if_pos e12]
      simp only [decide_eq_true_eq]
      exact h1
    · rw [if_pos e23] at h2
      simp only [decide_eq_true_eq] at h2
      rw [if_pos (show sc1 ≠ sc3 by omega)]
      simp only [decide_eq_true_eq]
      omega

theorem compare_teams_eq_cmpKey (s : ICPCSystem) (n1 n2 : String) (incl : Bool) :
    compare_teams s n1 n2 incl = cmpKey
      (calculate_team_stats (getTeam s n1) incl).solved_count
      (calculate_team_stats (getTeam s n1) incl).penalty_time
      (calculate_team_stats (getTeam s n1) incl).solve_times n1
      (calculate_team_stats (getTeam s n2) incl).solved_count
      (calculate_team_stats (getTeam s n2) incl).penalty_time
      (calculate_team_stats (getTeam s n2) incl).solve_times n2 := rfl

theorem solve_times_length (t : Team) (incl : Bool) :
    (calculate_team_stats t incl).solve_times.length =
      (calculate_team_stats t incl).solved_count := by
  simp only [calculate_team_stats]
  rw [(sortCmp_perm _ _).length_eq, List.length_map]

theorem compare_teams_irrefl (s : ICPCSystem) (a : String) (incl : Bool) :
    compare_teams s a a incl = false := by
  rw [compare_teams_eq_cmpKey]
  exact cmpKey_irrefl _ _ _ _

theorem compare_teams_asymm {s : ICPCSystem} {a b : String} {incl : Bool}
    (h : compare_teams s a b incl = true) : compare_teams s b a incl = false := by
  rw [compare_teams_eq_cmpKey] at h ⊢
  exact cmpKey_asymm h

theorem compare_teams_total {s : ICPCSystem} {a b : String} {incl : Bool} (h : a ≠ b) :
    compare_teams s a b incl = true ∨ compare_teams s b a incl = true := by
  rw [compare_teams_eq_cmpKey, compare_teams_eq_cmpKey]
  exact cmpKey_total h

theorem compare_teams_trans {s : ICPCSystem} {a b c : String} {incl : Bool}
    (h1 : compare_teams s a b incl = true) (h2 : compare_teams s b c incl = true) :
    compare_teams s a c incl = true := by
  rw [compare_teams_eq_cmpKey] at h1 h2 ⊢
  exact cmpKey_trans (solve_times_length _ _) (solve_times_length _ _)
    (solve_times_length _ _) h1 h2

/-! ### The rank assignment of a Ranker pass -/

theorem getTeam_flush_mem (s : ICPCSystem) (hnd : s.team_order.Nodup) {n : String}
    (hn : n ∈ s.team_order) :
    getTeam (flush_scoreboard s) n =
      { getTeam s n with ranking :=
          1 + (sortCmp (fun a b => compare_teams s a b false) s.team_order).indexOf n } := by
  have hperm := sortCmp_perm (fun a b => compare_teams s a b false) s.team_order
  have hnd' := hperm.nodup_iff.mpr hnd
  have hmem := hperm.mem_iff.mpr hn
  show mapGetD (assignRanks s.teams _ 1) n ({} : Team) = _
  rw [mapGetD, assignRanks_mem _ hnd' hmem 1]
  rfl

theorem getTeam_flush_not_mem (s : ICPCSystem) {n : String} (hn : n ∉ s.team_order) :
    getTeam (flush_scoreboard s) n = getTeam s n := by
  have hperm := sortCmp_perm (fun a b => compare_teams s a b false) s.team_order
  have hm : n ∉ sortCmp (fun a b => compare_teams s a b false) s.team_order :=
    fun hc => hn (hperm.mem_iff.mp hc)
  show mapGetD (assignRanks s.teams _ 1) n ({} : Team) = mapGetD s.teams n ({} : Team)
  rw [mapGetD, assignRanks_not_mem _ hm, mapGetD]

theorem flush_rank (s : ICPCSystem) (hnd : s.team_order.Nodup) {n : String}
    (hn : n ∈ s.team_order) :
    (getTeam (flush_scoreboard s) n).ranking = flushRankValue s n := by
  rw [getTeam_flush_mem s hnd hn]
  have hperm := sortCmp_perm (fun a b => compare_teams s a b false) s.team_order
  have hP := @pairwise_sortCmp String (fun a b => compare_teams s a b false)
    s.team_order
    (fun _ _ _ _ _ _ h1 h2 => compare_teams_trans h1 h2)
    (fun _ _ _ _ hne => compare_teams_total hne) hnd
  have hasym : ∀ x y, x ∈ sortCmp (fun a b => compare_teams s a b false) s.team_order →
      y ∈ sortCmp (fun a b => compare_teams s a b false) s.team_order →
      compare_teams s x y false = true → compare_teams s y x false = false :=
    fun _ _ _ _ h => compare_teams_asymm h
  show 1 + _ = _
  rw [pairwise_indexOf_eq_countP hP hasym (hperm.mem_iff.mpr hn), hperm.countP_eq]
  rfl

theorem assignRanks_fields :
    ∀ {L : List String} (tm : List (String × Team)) (i : Nat) (n : String),
    (mapGetD (assignRanks tm L i) n ({} : Team)).problems =
        (mapGetD tm n ({} : Team)).problems ∧
      (mapGetD (assignRanks tm L i) n ({} : Team)).submissions =
        (mapGetD tm n ({} : Team)).submissions
  | [], _, _, _ => ⟨rfl, rfl⟩
  | m :: rest, tm, i, n => by
    simp only [assignRanks]
    have h := @assignRanks_fields rest
      (mapSet tm m { mapGetD tm m ({} : Team) with ranking := i }) (i + 1) n
    by_cases hmn : m = n
    · subst hmn
      refine ⟨?_, ?_⟩
      · rw [h.1, mapGetD_mapSet_self]
      · rw [h.2, mapGetD_mapSet_self]
    · refine ⟨?_, ?_⟩
      · rw [h.1, mapGetD_mapSet_ne _ _ _ hmn]
      · rw [h.2, mapGetD_mapSet_ne _ _ _ hmn]

theorem getTeam_flush_problems (s : ICPCSystem) (n : String) :
    (getTeam (flush_scoreboard s) n).problems = (getTeam s n).problems :=
  (assignRanks_fields s.teams 1 n).1

theorem getTeam_flush_submissions (s : ICPCSystem) (n : String) :
    (getTeam (flush_scoreboard s) n).submissions = (getTeam s n).submissions :=
  (assignRanks_fields s.teams 1 n).2

theorem calc_stats_congr {t t' : Team} (h : t.problems = t'.problems) (incl : Bool) :
    (calculate_team_stats t incl).solved_count =
        (calculate_team_stats t' incl).solved_count ∧
      (calculate_team_stats t incl).penalty_time =
        (calculate_team_stats t' incl).penalty_time ∧
      (calculate_team_stats t incl).solve_times =
        (calculate_team_stats t' incl).solve_times := by
  simp [calculate_team_stats, h]

theorem compare_teams_flush (s : ICPCSystem) (a b : String) (incl : Bool) :
    compare_teams (flush_scoreboard s) a b incl = compare_teams s a b incl := by
  rw [compare_teams_eq_cmpKey, compare_teams_eq_cmpKey]
  obtain ⟨ha1, ha2, ha3⟩ := calc_stats_congr (getTeam_flush_problems s a) incl
  obtain ⟨hb1, hb2, hb3⟩ := calc_stats_congr (getTeam_flush_problems s b) incl
  rw [ha1, ha2, ha3, hb1, hb2, hb3]

theorem flushRankValue_flush (s : ICPCSystem) (n : String) :
    flushRankValue (flush_scoreboard s) n = flushRankValue s n := by
  unfold flushRankValue
  congr 1
  exact List.countP_congr (fun m _ => by rw [compare_teams_flush s m n false])

theorem flush_rankConsistent (s : ICPCSystem) (hnd : s.team_order.Nodup) :
    rankConsistent (flush_scoreboard s) := by
  intro n hn
  rw [flush_rank s hnd hn, flushRankValue_flush]

/-! ### Claim C1 -/

theorem cmpKey_iff_chain {sc1 pt1 sc2 pt2 : Nat} {st1 st2 : List Nat} {n1 n2 : String} :
    cmpKey sc1 pt1 st1 n1 sc2 pt2 st2 n2 = true ↔
      (sc2 < sc1 ∨ (sc1 = sc2 ∧ (pt1 < pt2 ∨ (pt1 = pt2 ∧
        ((∃ x y, firstDiff st1 st2 = some (x, y) ∧ x < y) ∨
          (firstDiff st1 st2 = none ∧ strLt n1 n2 = true)))))) := by
  unfold cmpKey
  by_cases e1 : sc1 = sc2
  · subst e1
    rw [if_neg (by simp)]
    by_cases e2 : pt1 = pt2
    · subst e2
      rw [if_neg (by simp)]
      cases hfd : firstDiff st1 st2 with
      | none => simp [hfd]
      | some p =>
        obtain ⟨x, y⟩ := p
        simp [hfd]
        constructor
        · intro h
          exact ⟨x, y, ⟨rfl, rfl⟩, h⟩
        · rintro ⟨x', y', ⟨rfl, rfl⟩, h⟩
          exact h
    · rw [if_pos e2]
      simp only [decide_eq_true_eq]
      constructor
      · intro h
        exact Or.inr ⟨by trivial, Or.inl h⟩
      · rintro (h | ⟨-, h | ⟨hp, -⟩⟩)
        · exact absurd h (lt_irrefl _)
        · exact h
        · exact absurd hp e2
  · rw [if_pos e1]
    simp only [decide_eq_true_eq, gt_iff_lt]
    constructor
    · intro h
      exact Or.inl h
    · rintro (h | ⟨hp, -⟩)
      · exact h
      · exact absurd hp e1

/-- C1: for any two teams and fixed visibility mode, the Ranker comparator
orders them by exactly the claimed chain (more solved, then lower penalty,
then smaller value at the first differing index of the descending solve-time
profiles over the shared indices, then lexicographically smaller name), and
this comparison is a strict total order: irreflexive, asymmetric and total
on distinct names, and transitive. -/
theorem C1_ranker_strict_total_order (s : ICPCSystem) (incl : Bool) (a b c : String) :
    (compare_teams s a b incl = true ↔
      ((calculate_team_stats (getTeam s b) incl).solved_count <
          (calculate_team_stats (getTeam s a) incl).solved_count ∨
        ((calculate_team_stats (getTeam s a) incl).solved_count =
            (calculate_team_stats (getTeam s b) incl).solved_count ∧
          ((calculate_team_stats (getTeam s a) incl).penalty_time <
              (calculate_team_stats (getTeam s b) incl).penalty_time ∨
            ((calculate_team_stats (getTeam s a) incl).penalty_time =
                (calculate_team_stats (getTeam s b) incl).penalty_time ∧
              ((∃ x y, firstDiff (calculate_team_stats (getTeam s a) incl).solve_times
                    (calculate_team_stats (getTeam s b) incl).solve_times = some (x, y) ∧
                  x < y) ∨
                (firstDiff (calculate_team_stats (getTeam s a) incl).solve_times
                    (calculate_team_stats (getTeam s b) incl).solve_times = none ∧
                  strLt a b = true))))))) ∧
    compare_teams s a a incl = false ∧
    (a ≠ b → (compare_teams s a b incl = true ↔ compare_teams s b a incl = false)) ∧
    (compare_teams s a b incl = true → compare_teams s b c incl = true →
      compare_teams s a c incl = true) := by
  refine ⟨?_, compare_teams_irrefl s a incl, ?_, fun h1 h2 => compare_teams_trans h1 h2⟩
  · rw [compare_teams_eq_cmpKey]
    exact cmpKey_iff_chain
  · intro hne
    constructor
    · exact compare_teams_asymm
    · intro h
      rcases @compare_teams_total s a b incl hne with hc | hc
      · exact hc
      · rw [hc] at h
        cases h

theorem C1_ranker_strict_total_order_witness :
    "Bob" ≠ "Alice" ∧ compare_teams exFlushed "Bob" "Alice" false = true ∧
      compare_teams exFlushed "Alice" "Bob" false = false := by
  have h := C1_ranker_strict_total_order exFlushed false "Bob" "Alice" "Alice"
  exact ⟨by decide, by decide, (h.2.2.1 (by decide)).mp (by decide)⟩

/-! ### Claim C3 -/

theorem map_add_indexOf [DecidableEq α] : ∀ {L : List α}, L.Nodup →
    ∀ k, L.map (fun n => k + L.indexOf n) = List.range' k L.length
  | [], _, k => by simp
  | a :: rest, hnd, k => by
    rcases List.nodup_cons.mp hnd with ⟨ha, hnd'⟩
    have htl : rest.map (fun n => k + List.indexOf n (a :: rest)) =
        rest.map (fun n => (k + 1) + List.indexOf n rest) :=
      List.map_congr_left (fun n hn => by
        rw [List.indexOf_cons_ne _ (fun he => ha (by rw [he]; exact hn))]
        omega)
    simp only [List.map_cons, List.indexOf_cons_self, List.length_cons, List.range'_succ]
    refine congrArg₂ _ (by omega) ?_
    rw [htl, map_add_indexOf hnd' (k + 1)]

/-- C3: after a Ranker pass (the `flush_scoreboard` used by flushRanking and
by every scroll iteration), the rank fields of the registered teams are a
bijection onto 1..N: their multiset equals {1, ..., N}, with no duplicate
and no gap, regardless of how the stats tie. -/
theorem C3_flush_rank_bijection (s : ICPCSystem) (hnd : s.team_order.Nodup) :
    (s.team_order.map (fun n => (getTeam (flush_scoreboard s) n).ranking)).Perm
      (List.range' 1 s.team_order.length) := by
  have hperm := sortCmp_perm (fun a b => compare_teams s a b false) s.team_order
  have hndL := hperm.nodup_iff.mpr hnd
  have hmapeq : ∀ n ∈ s.team_order, (getTeam (flush_scoreboard s) n).ranking =
      1 + (sortCmp (fun a b => compare_teams s a b false) s.team_order).indexOf n :=
    fun n hn => by rw [getTeam_flush_mem s hnd hn]
  rw [List.map_congr_left hmapeq]
  have h2 := hperm.symm.map
    (fun n => 1 + (sortCmp (fun a b => compare_teams s a b false) s.team_order).indexOf n)
  refine h2.trans ?_
  rw [map_add_indexOf hndL 1, hperm.length_eq]

theorem C3_flush_rank_bijection_witness :
    (exFrozen.team_order.map (fun n => (getTeam (flush_scoreboard exFrozen) n).ranking)).Perm
      (List.range' 1 exFrozen.team_order.length) :=
  C3_flush_rank_bijection exFrozen (by decide)

/-! ### Claim C2 -/

theorem process_solved : ∀ (subs : List Submission) (p : String) (ps : ProblemStatus)
    (add : Nat), ps.solved = true → process_frozen_subs subs p ps add = (ps, add)
  | [], _, _, _, _ => rfl
  | sub :: rest, p, ps, add, h => by
    simp only [process_frozen_subs]
    by_cases hc : sub.problem = p ∧ sub.before_freeze = false
    · rw [if_pos hc, if_neg (by rw [h]; simp)]
      exact process_solved rest p ps add h
    · rw [if_neg hc]
      exact process_solved rest p ps add h

theorem process_frozen_field : ∀ (subs : List Submission) (p : String) (ps : ProblemStatus)
    (add : Nat), (process_frozen_subs subs p ps add).1.frozen = ps.frozen
  | [], _, _, _ => rfl
  | sub :: rest, p, ps, add => by
    simp only [process_frozen_subs]
    by_cases hc : sub.problem = p ∧ sub.before_freeze = false
    · rw [if_pos hc]
      by_cases hs : ps.solved = false
      · rw [if_pos hs]
        by_cases ha : sub.status = "Accepted"
        · rw [if_pos ha, process_frozen_field]
        · rw [if_neg ha, process_frozen_field]
      · rw [if_neg hs, process_frozen_field]
    · rw [if_neg hc, process_frozen_field]

theorem process_none : ∀ (subs : List Submission) (p : String) (ps : ProblemStatus)
    (add : Nat), ps.solved = false →
    (subs.filter (fun sub => decide (sub.problem = p ∧ sub.before_freeze = false))).find?
      (fun sub => decide (sub.status = "Accepted")) = none →
    process_frozen_subs subs p ps add =
      (ps, add +
        (subs.filter (fun sub => decide (sub.problem = p ∧ sub.before_freeze = false))).countP
          (fun sub => !decide (sub.status = "Accepted")))
  | [], _, _, add, _, _ => by simp [process_frozen_subs]
  | sub :: rest, p, ps, add, h, hfind => by
    simp only [process_frozen_subs]
    by_cases hc : sub.problem = p ∧ sub.before_freeze = false
    · rw [List.filter_cons_of_pos (by simpa using hc)] at hfind ⊢
      have hna : ¬sub.status = "Accepted" := by
        intro ha
        rw [List.find?_cons_of_pos _ (by simpa using ha)] at hfind
        cases hfind
      rw [List.find?_cons_of_neg _ (by simpa using hna)] at hfind
      rw [if_pos hc, if_pos h, if_neg hna]
      rw [process_none rest p ps (add + 1) h hfind]
      rw [List.countP_cons_of_pos _ _ (by simpa using hna)]
      exact congrArg (Prod.mk ps) (by omega)
    · rw [List.filter_cons_of_neg (by simpa using hc)] at hfind ⊢
      rw [if_neg hc]
      exact process_none rest p ps add h hfind

theorem process_some : ∀ (subs : List Submission) (p : String) (ps : ProblemStatus)
    (add : Nat) (a : Submission), ps.solved = false →
    (subs.filter (fun sub => decide (sub.problem = p ∧ sub.before_freeze = false))).find?
      (fun sub => decide (sub.status = "Accepted")) = some a →
    process_frozen_subs subs p ps add =
      ({ ps with
         solved := true
         solve_time := a.time
         wrong_attempts_before_first_success := ps.wrong_attempts_before_freeze + add +
           ((subs.filter
               (fun sub => decide (sub.problem = p ∧ sub.before_freeze = false))).takeWhile
             (fun sub => !decide (sub.status = "Accepted"))).length },
       add +
         ((subs.filter
             (fun sub => decide (sub.problem = p ∧ sub.before_freeze = false))).takeWhile
           (fun sub => !decide (sub.status = "Accepted"))).length)
  | [], _, _, _, _, _, hfind => by simp at hfind
  | sub :: rest, p, ps, add, a, h, hfind => by
    simp only [process_frozen_subs]
    by_cases hc : sub.problem = p ∧ sub.before_freeze = false
    · rw [List.filter_cons_of_pos (by simpa using hc)] at hfind ⊢
      rw [if_pos hc, if_pos h]
      by_cases ha : sub.status = "Accepted"
      · rw [List.find?_cons_of_pos _ (by simpa using ha)] at hfind
        cases hfind
        rw [if_pos ha]
        rw [List.takeWhile_cons_of_neg (by simpa using ha)]
        rw [process_solved rest p _ add rfl]
        exact congrArg₂ Prod.mk (by simp) (by simp)
      · rw [List.find?_cons_of_neg _ (by simpa using ha)] at hfind
        rw [if_neg ha]
        rw [process_some rest p ps (add + 1) a h hfind]
        rw [List.takeWhile_cons_of_pos (by simpa using ha)]
        refine congrArg₂ Prod.mk ?_ (by simp only [List.length_cons]; omega)
        simp only [List.length_cons]
        have harith : ps.wrong_attempts_before_freeze + (add + 1) +
            ((rest.filter
                (fun sub => decide (sub.problem = p ∧ sub.before_freeze = false))).takeWhile
              (fun sub => !decide (sub.status = "Accepted"))).length =
            ps.wrong_attempts_before_freeze + add +
              (((rest.filter
                  (fun sub => decide (sub.problem = p ∧ sub.before_freeze = false))).takeWhile
                (fun sub => !decide (sub.status = "Accepted"))).length + 1) := by omega
        rw [harith]
    · rw [List.filter_cons_of_neg (by simpa using hc)] at hfind ⊢
      rw [if_neg hc]
      exact process_some rest p ps add a h hfind

/-- C2: revealing a frozen (hence unsolved) problem clears the frozen flag
and replays the frozen-window submissions to it, in history order: if an
Accepted one exists, the problem becomes solved at the first Accepted
submission's time with wrong-attempt basis equal to the pre-freeze count
plus the non-accepted frozen-window submissions before it; otherwise the
problem stays unsolved and the pre-freeze wrong-attempt counter grows by
the number of non-accepted frozen-window submissions. -/
theorem C2_scroll_reveal_replay (ps : ProblemStatus) (subs : List Submission) (p : String)
    (h : ps.solved = false) :
    (reveal_problem ps subs p).frozen = false ∧
    (∀ a, (subs.filter (fun sub => decide (sub.problem = p ∧ sub.before_freeze = false))).find?
        (fun sub => decide (sub.status = "Accepted")) = some a →
      reveal_problem ps subs p =
        { ps with
          frozen := false
          solved := true
          solve_time := a.time
          wrong_attempts_before_first_success := ps.wrong_attempts_before_freeze +
            ((subs.filter
                (fun sub => decide (sub.problem = p ∧ sub.before_freeze = false))).takeWhile
              (fun sub => !decide (sub.status = "Accepted"))).length }) ∧
    ((subs.filter (fun sub => decide (sub.problem = p ∧ sub.before_freeze = false))).find?
        (fun sub => decide (sub.status = "Accepted")) = none →
      reveal_problem ps subs p =
        { ps with
          frozen := false
          wrong_attempts_before_freeze := ps.wrong_attempts_before_freeze +
            (subs.filter
                (fun sub => decide (sub.problem = p ∧ sub.before_freeze = false))).countP
              (fun sub => !decide (sub.status = "Accepted")) }) := by
  refine ⟨?_, ?_, ?_⟩
  · unfold reveal_problem
    by_cases hs : (process_frozen_subs subs p { ps with frozen := false } 0).1.solved = true
    · rw [if_pos hs]
      rw [process_frozen_field]
    · rw [if_neg hs]
      show (process_frozen_subs subs p { ps with frozen := false } 0).1.frozen = false
      rw [process_frozen_field]
  · intro a hfind
    simp only [reveal_problem]
    rw [process_some subs p { ps with frozen := false } 0 a h hfind]
    simp
  · intro hfind
    simp only [reveal_problem]
    rw [process_none subs p { ps with frozen := false } 0 h hfind]
    simp [h]

theorem C2_scroll_reveal_replay_witness :
    (reveal_problem c2ps c2subs "B").frozen = false ∧
      reveal_problem c2ps c2subs "B" =
        { c2ps with
          frozen := false
          solved := true
          solve_time := 30
          wrong_attempts_before_first_success := 2 } := by
  have h := C2_scroll_reveal_replay c2ps c2subs "B" (by decide)
  refine ⟨h.1, ?_⟩
  rw [h.2.1 { problem := "B", status := "Accepted", time := 30, before_freeze := false }
    (by decide)]
  decide

/-! ### Claim C9 -/

theorem C9_frozen_cell_counterexample :
    ¬claimC9Prop ∧ problemCell (some c9ps) = "0/2" ∧
      specFrozenCellClaim c9ps = "/2" ∧ "-" ++ specFrozenCellClaim c9ps = "-/2" := by
  refine ⟨?_, by decide, by decide, by decide⟩
  intro h
  rcases h c9ps (by decide) with hc | hc
  · exact absurd hc (by decide)
  · exact absurd hc (by decide)

/-- C9 amended: a hidden frozen cell is rendered as the pre-freeze
wrong-attempt count followed by a slash and the frozen-window attempt
count, but the code prints the digit 0 (not an empty field) when there are
no pre-freeze wrong attempts, and prefixes a minus sign to a nonzero
count. -/
theorem C9_frozen_cell_amended (ps : ProblemStatus) (h : ps.frozen = true) :
    problemCell (some ps) = specFrozenCellAmended ps := by
  simp only [problemCell, specFrozenCellAmended, h, if_true]
  by_cases h0 : ps.wrong_attempts_before_freeze = 0
  · rw [if_pos h0, if_pos h0, h0]
    rfl
  · rw [if_neg h0, if_neg h0]

theorem C9_frozen_cell_amended_witness :
    problemCell (some c9ps) = specFrozenCellAmended c9ps :=
  C9_frozen_cell_amended c9ps (by decide)

/-! ### Claim C10 -/

/-- C10: a submission naming a never-registered team default-inserts a Team
record (with the default-constructed empty name) into the registry, but not
into the ranking order list; a later ranking query for that name therefore
succeeds and reports rank 0 instead of failing with the
cannot-find-the-team condition. -/
theorem C10_ghost_team_query_ranking :
    mapContains ghInit.teams "Ghost" = false ∧
      query_ranking ghInit "Ghost" = none ∧
      mapContains ghState.teams "Ghost" = true ∧
      "Ghost" ∉ ghState.team_order ∧
      (getTeam ghState "Ghost").name = "" ∧
      (getTeam ghState "Ghost").ranking = 0 ∧
      query_ranking ghState "Ghost" = some (0, false) := by
  refine ⟨by decide, by decide, by decide, by decide, by decide, by decide, by decide⟩

/-! ### Claim C6 -/

/-- C6: submit always appends the submission to the team's history; while
frozen, a submission to an unsolved problem only sets the frozen flag and
bumps the frozen-window attempt counter; a submission to an already solved
problem never changes the problem status; while unfrozen, on an unsolved
problem an Accepted verdict records the solve (solve time = submission
time, wrong-attempt basis = accumulated pre-freeze wrong attempts) and any
other verdict bumps the pre-freeze wrong-attempt counter. -/
theorem C6_submit_effect (s : ICPCSystem) (problem team_name status : String) (time : Nat) :
    (getTeam (submit s problem team_name status time) team_name).submissions =
        (getTeam s team_name).submissions ++
          [{ problem := problem, status := status, time := time,
             before_freeze := !s.is_frozen }] ∧
      (s.is_frozen = true → (getPS (getTeam s team_name) problem).solved = false →
        getPS (getTeam (submit s problem team_name status time) team_name) problem =
          { getPS (getTeam s team_name) problem with
            frozen := true
            submissions_after_freeze :=
              (getPS (getTeam s team_name) problem).submissions_after_freeze + 1 }) ∧
      ((getPS (getTeam s team_name) problem).solved = true →
        getPS (getTeam (submit s problem team_name status time) team_name) problem =
          getPS (getTeam s team_name) problem) ∧
      (s.is_frozen = false → (getPS (getTeam s team_name) problem).solved = false →
        status = "Accepted" →
        getPS (getTeam (submit s problem team_name status time) team_name) problem =
          { getPS (getTeam s team_name) problem with
            solved := true
            solve_time := time
            wrong_attempts_before_first_success :=
              (getPS (getTeam s team_name) problem).wrong_attempts_before_freeze }) ∧
      (s.is_frozen = false → (getPS (getTeam s team_name) problem).solved = false →
        ¬status = "Accepted" →
        getPS (getTeam (submit s problem team_name status time) team_name) problem =
          { getPS (getTeam s team_name) problem with
            wrong_attempts_before_freeze :=
              (getPS (getTeam s team_name) problem).wrong_attempts_before_freeze + 1 }) := by
  have hteam : getTeam (submit s problem team_name status time) team_name =
      { getTeam s team_name with
        submissions := (getTeam s team_name).submissions ++
          [{ problem := problem, status := status, time := time,
             before_freeze := !s.is_frozen }]
        problems := mapSet (getTeam s team_name).problems problem
          (if s.is_frozen then
            if (getPS (getTeam s team_name) problem).solved = false then
              { getPS (getTeam s team_name) problem with
                frozen := true
                submissions_after_freeze :=
                  (getPS (getTeam s team_name) problem).submissions_after_freeze + 1 }
            else getPS (getTeam s team_name) problem
          else
            if (getPS (getTeam s team_name) problem).solved = false then
              if status = "Accepted" then
                { getPS (getTeam s team_name) problem with
                  solved := true
                  solve_time := time
                  wrong_attempts_before_first_success :=
                    (getPS (getTeam s team_name) problem).wrong_attempts_before_freeze }
              else
                { getPS (getTeam s team_name) problem with
                  wrong_attempts_before_freeze :=
                    (getPS (getTeam s team_name) problem).wrong_attempts_before_freeze + 1 }
            else getPS (getTeam s team_name) problem) } := by
    show mapGetD (mapSet s.teams team_name _) team_name ({} : Team) = _
    rw [mapGetD_mapSet_self]
  have hps : getPS (getTeam (submit s problem team_name status time) team_name) problem =
      (if s.is_frozen then
        if (getPS (getTeam s team_name) problem).solved = false then
          { getPS (getTeam s team_name) problem with
            frozen := true
            submissions_after_freeze :=
              (getPS (getTeam s team_name) problem).submissions_after_freeze + 1 }
        else getPS (getTeam s team_name) problem
      else
        if (getPS (getTeam s team_name) problem).solved = false then
          if status = "Accepted" then
            { getPS (getTeam s team_name) problem with
              solved := true
              solve_time := time
              wrong_attempts_before_first_success :=
                (getPS (getTeam s team_name) problem).wrong_attempts_before_freeze }
          else
            { getPS (getTeam s team_name) problem with
              wrong_attempts_before_freeze :=
                (getPS (getTeam s team_name) problem).wrong_attempts_before_freeze + 1 }
        else getPS (getTeam s team_name) problem) := by
    rw [hteam]
    show mapGetD (mapSet (getTeam s team_name).problems problem _) problem
      ({} : ProblemStatus) = _
    rw [mapGetD_mapSet_self]
  refine ⟨by rw [hteam], ?_, ?_, ?_, ?_⟩
  · intro hf hs
    rw [hps, if_pos (by rw [hf]), if_pos hs]
  · intro hs
    rw [hps]
    by_cases hf : s.is_frozen
    · rw [if_pos hf, if_neg (by rw [hs]; simp)]
    · rw [if_neg hf, if_neg (by rw [hs]; simp)]
  · intro hf hs hacc
    rw [hps, if_neg (by rw [hf]; simp), if_pos hs, if_pos hacc]
  · intro hf hs hacc
    rw [hps, if_neg (by rw [hf]; simp), if_pos hs, if_neg hacc]

/-! ### Claim C8 -/

theorem find?_split : ∀ {L : List α} {q : α → Bool} {a : α}, L.find? q = some a →
    ∃ L1 L2, L = L1 ++ a :: L2 ∧ ∀ x ∈ L1, q x = false
  | [], _, _, h => by simp at h
  | b :: rest, q, a, h => by
    by_cases hq : q b = true
    · rw [List.find?_cons_of_pos _ hq] at h
      cases h
      exact ⟨[], rest, rfl, by simp⟩
    · rw [List.find?_cons_of_neg _ hq] at h
      obtain ⟨L1, L2, heq, hall⟩ := find?_split h
      refine ⟨b :: L1, L2, by rw [heq]; rfl, ?_⟩
      intro x hx
      rcases List.mem_cons.mp hx with hxb | hx1
      · subst hxb
        exact Bool.eq_false_iff.mpr hq
      · exact hall x hx1

/-- C8: the submission query fails on an unknown team; on a known team it
scans the history from the most recent entry backwards and returns the
first entry matching both filters, where the filter value ALL matches
anything; if nothing matches (in particular on an empty history) it reports
the not-found condition. -/
theorem C8_query_submission_spec (s : ICPCSystem) (tn p st : String) :
    (mapContains s.teams tn = false → query_submission s tn p st = none) ∧
      (mapContains s.teams tn = true → (getTeam s tn).submissions = [] →
        query_submission s tn p st = some none) ∧
      (∀ sub, subMatches "ALL" "ALL" sub = true) ∧
      (query_submission s tn p st = some none →
        ∀ x ∈ (getTeam s tn).submissions, subMatches p st x = false) ∧
      (∀ sub, query_submission s tn p st = some (some sub) →
        subMatches p st sub = true ∧
          ∃ l1 l2, (getTeam s tn).submissions = l1 ++ sub :: l2 ∧
            ∀ x ∈ l2, subMatches p st x = false) := by
  refine ⟨?_, ?_, ?_, ?_, ?_⟩
  · intro h
    rw [query_submission, if_neg (by rw [h]; simp)]
  · intro h hemp
    rw [query_submission, if_pos (by rw [h]), hemp]
    rfl
  · intro sub
    simp [subMatches]
  · intro h x hx
    by_cases hc : mapContains s.teams tn = true
    · rw [query_submission, if_pos hc] at h
      have hfind : ((getTeam s tn).submissions.reverse).find? (subMatches p st) = none :=
        Option.some.inj h
      have := List.find?_eq_none.mp hfind x (List.mem_reverse.mpr hx)
      exact Bool.eq_false_iff.mpr this
    · rw [query_submission, if_neg hc] at h
      cases h
  · intro sub h
    by_cases hc : mapContains s.teams tn = true
    · rw [query_submission, if_pos hc] at h
      have hfind : ((getTeam s tn).submissions.reverse).find? (subMatches p st) = some sub :=
        Option.some.inj h
      refine ⟨List.find?_some hfind, ?_⟩
      obtain ⟨L1, L2, heq, hall⟩ := find?_split hfind
      refine ⟨L2.reverse, L1.reverse, ?_, ?_⟩
      · have := congrArg List.reverse heq
        rw [List.reverse_reverse] at this
        rw [this, List.reverse_append]
        simp
      · intro x hx
        exact hall x (List.mem_reverse.mp hx)
    · rw [query_submission, if_neg hc] at h
      cases h

theorem C8_query_submission_spec_witness :
    query_submission exStarted "Alice" "ALL" "ALL" = some none ∧
      query_submission exStarted "Ghost" "ALL" "ALL" = none :=
  ⟨(C8_query_submission_spec exStarted "Alice" "ALL" "ALL").2.1 (by decide) (by decide),
    (C8_query_submission_spec exStarted "Ghost" "ALL" "ALL").1 (by decide)⟩

theorem C6_submit_effect_witness :
    exPre.is_frozen = true ∧
      (getPS (getTeam exPre "Alice") "B").solved = false ∧
      getPS (getTeam (submit exPre "B" "Alice" "Accepted" 100) "Alice") "B" =
        { getPS (getTeam exPre "Alice") "B" with
          frozen := true
          submissions_after_freeze :=
            (getPS (getTeam exPre "Alice") "B").submissions_after_freeze + 1 } :=
  ⟨by decide, by decide,
    (C6_submit_effect exPre "B" "Alice" "Accepted" 100).2.1 (by decide) (by decide)⟩

/-! ### Anatomy of one scroll iteration -/

theorem scroll_step_eq {s : ICPCSystem} {t : String}
    (hpick : pickLowest s (sortCmp (fun a b => compare_teams s a b false) s.team_order)
      = some t) :
    scroll_step s =
      if (getTeam (flush_scoreboard (revealState s t)) t).ranking <
          (getTeam s t).ranking then
        some (flush_scoreboard (revealState s t),
          some { team := t
                 replaced := ((sortCmp (fun a b => compare_teams s a b false)
                     s.team_order).find? (fun n =>
                   decide ((getTeam s n).ranking =
                     (getTeam (flush_scoreboard (revealState s t)) t).ranking ∧
                     ¬n = t))).getD ""
                 solved_count := (calculate_team_stats
                   (getTeam (flush_scoreboard (revealState s t)) t) false).solved_count
                 penalty_time := (calculate_team_stats
                   (getTeam (flush_scoreboard (revealState s t)) t) false).penalty_time })
      else some (flush_scoreboard (revealState s t), none) := by
  simp only [scroll_step, hpick]

theorem scroll_step_state {s s' : ICPCSystem} {t : String} {nt : Option Notification}
    (hpick : pickLowest s (sortCmp (fun a b => compare_teams s a b false) s.team_order)
      = some t)
    (hstep : scroll_step s = some (s', nt)) :
    s' = flush_scoreboard (revealState s t) := by
  rw [scroll_step_eq hpick] at hstep
  by_cases hc : (getTeam (flush_scoreboard (revealState s t)) t).ranking <
      (getTeam s t).ranking
  · rw [if_pos hc] at hstep
    exact (congrArg Prod.fst (Option.some.inj hstep)).symm
  · rw [if_neg hc] at hstep
    exact (congrArg Prod.fst (Option.some.inj hstep)).symm

theorem scroll_step_none_pick {s : ICPCSystem} (h : scroll_step s = none) :
    pickLowest s (sortCmp (fun a b => compare_teams s a b false) s.team_order) = none := by
  cases hp : pickLowest s (sortCmp (fun a b => compare_teams s a b false) s.team_order) with
  | none => rfl
  | some t =>
    rw [scroll_step_eq hp] at h
    by_cases hc : (getTeam (flush_scoreboard (revealState s t)) t).ranking <
        (getTeam s t).ranking
    · rw [if_pos hc] at h
      cases h
    · rw [if_neg hc] at h
      cases h

theorem scroll_step_of_pick {s : ICPCSystem} {t : String}
    (hpick : pickLowest s (sortCmp (fun a b => compare_teams s a b false) s.team_order)
      = some t) :
    ∃ nt, scroll_step s = some (flush_scoreboard (revealState s t), nt) := by
  rw [scroll_step_eq hpick]
  by_cases hc : (getTeam (flush_scoreboard (revealState s t)) t).ranking <
      (getTeam s t).ranking
  · rw [if_pos hc]
    exact ⟨_, rfl⟩
  · rw [if_neg hc]
    exact ⟨none, rfl⟩

theorem pickLowest_mem {s : ICPCSystem} {sorted : List String} {t : String}
    (h : pickLowest s sorted = some t) : t ∈ sorted ∧ hasFrozen (getTeam s t) = true := by
  unfold pickLowest at h
  have h1 := List.mem_of_find?_eq_some h
  have h2 := List.find?_some h
  exact ⟨List.mem_reverse.mp h1, h2⟩

theorem hasFrozen_exists {t : Team} (h : hasFrozen t = true) :
    ∃ e ∈ t.problems, e.2.frozen = true := by
  simpa [hasFrozen, List.any_eq_true] using h

theorem mapFind_of_mem_nodup {β} :
    ∀ {m : List (String × β)}, (m.map Prod.fst).Nodup →
      ∀ {e : String × β}, e ∈ m → mapFind m e.1 = some e.2
  | [], _, e, he => absurd he (List.not_mem_nil _)
  | (k, v) :: rest, hnd, e, he => by
    rw [List.map_cons] at hnd
    rcases List.nodup_cons.mp hnd with ⟨hnot, hnd'⟩
    rcases List.mem_cons.mp he with h1 | h1
    · subst h1
      simp [mapFind]
    · have hk : ¬k = e.1 := by
        intro hc
        exact hnot (hc ▸ List.mem_map.mpr ⟨e, h1, rfl⟩)
      simp only [mapFind]
      rw [if_neg hk]
      exact mapFind_of_mem_nodup hnd' h1

theorem getPS_of_mem_nodup {t : Team} (hnd : (t.problems.map Prod.fst).Nodup)
    {e : String × ProblemStatus} (he : e ∈ t.problems) : getPS t e.1 = e.2 := by
  unfold getPS mapGetD
  rw [mapFind_of_mem_nodup hnd he]
  rfl

theorem mapFind_of_getPS_frozen {t : Team} {p : String} (h : (getPS t p).frozen = true) :
    mapFind t.problems p = some (getPS t p) := by
  unfold getPS mapGetD at h ⊢
  cases hf : mapFind t.problems p with
  | none =>
    rw [hf] at h
    cases h
  | some v => rfl

theorem pick_frozen (s : ICPCSystem) (t : String)
    (hpwf : problemsWF s) (hfwf : frozenWF s)
    (hpick : pickLowest s (sortCmp (fun a b => compare_teams s a b false) s.team_order)
      = some t) :
    t ∈ s.team_order ∧ (getPS (getTeam s t) (unfreezeProblemOf s t)).frozen = true := by
  obtain ⟨hmem, hfz⟩ := pickLowest_mem hpick
  have ht : t ∈ s.team_order := (sortCmp_perm _ _).mem_iff.mp hmem
  refine ⟨ht, ?_⟩
  obtain ⟨e, he, hef⟩ := hasFrozen_exists hfz
  have hgp : getPS (getTeam s t) e.1 = e.2 := getPS_of_mem_nodup (hpwf t ht) he
  have hpn : e.1 ∈ s.problem_names := hfwf t ht e he hef
  have hsome : (s.problem_names.find?
      (fun p => (getPS (getTeam s t) p).frozen)).isSome = true := by
    rw [List.find?_isSome]
    exact ⟨e.1, hpn, by rw [hgp]; exact hef⟩
  obtain ⟨p, hp⟩ := Option.isSome_iff_exists.mp hsome
  have hup : unfreezeProblemOf s t = p := by
    unfold unfreezeProblemOf
    rw [hp]
    rfl
  rw [hup]
  have h2 := List.find?_some hp
  exact h2

theorem getTeam_revealState_self (s : ICPCSystem) (t : String) :
    getTeam (revealState s t) t =
      { getTeam s t with
        problems := mapSet (getTeam s t).problems (unfreezeProblemOf s t)
          (reveal_problem (getPS (getTeam s t) (unfreezeProblemOf s t))
            (getTeam s t).submissions (unfreezeProblemOf s t)) } := by
  simp only [revealState]
  show mapGetD (mapSet s.teams t _) t ({} : Team) = _
  rw [mapGetD_mapSet_self]

theorem getTeam_revealState_ne (s : ICPCSystem) (t u : String) (h : ¬t = u) :
    getTeam (revealState s t) u = getTeam s u := by
  simp only [revealState]
  show mapGetD (mapSet s.teams t _) u ({} : Team) = mapGetD s.teams u ({} : Team)
  rw [mapGetD_mapSet_ne _ _ _ h]

theorem reveal_problem_frozen_false (ps : ProblemStatus) (subs : List Submission)
    (p : String) : (reveal_problem ps subs p).frozen = false := by
  unfold reveal_problem
  by_cases hs : (process_frozen_subs subs p { ps with frozen := false } 0).1.solved = true
  · rw [if_pos hs]
    rw [process_frozen_field]
  · rw [if_neg hs]
    show (process_frozen_subs subs p { ps with frozen := false } 0).1.frozen = false
    rw [process_frozen_field]

theorem filter_length_mapSet {β} :
    ∀ (m : List (String × β)) (p : String) (v w : β),
    mapFind m p = some w → ∀ P : String × β → Bool,
    ((mapSet m p v).filter P).length + (if P (p, w) = true then 1 else 0) =
      (m.filter P).length + (if P (p, v) = true then 1 else 0)
  | [], _, _, _, h, _ => by simp [mapFind] at h
  | (k, x) :: rest, p, v, w, h, P => by
    by_cases hk : k = p
    · subst hk
      have hx : x = w := by simpa [mapFind] using h
      subst hx
      simp only [mapSet, if_pos rfl, List.filter_cons]
      by_cases hv : P (k, v) = true <;> by_cases hw : P (k, x) = true <;>
        simp [hv, hw] <;> omega
    · have h' : mapFind rest p = some w := by simpa [mapFind, hk] using h
      simp only [mapSet, if_neg hk, List.filter_cons]
      have hrec := filter_length_mapSet rest p v w h' P
      by_cases hkP : P (k, x) = true
      · simp only [hkP, if_true, List.length_cons]
        omega
      · simp only [hkP, if_false]
        exact hrec

theorem filter_mapSet_eq {β} :
    ∀ (m : List (String × β)) (p : String) (v w : β),
    mapFind m p = some w → ∀ P : String × β → Bool,
    P (p, w) = false → P (p, v) = false →
    (mapSet m p v).filter P = m.filter P
  | [], _, _, _, h, _, _, _ => by simp [mapFind] at h
  | (k, x) :: rest, p, v, w, h, P, hw, hv => by
    by_cases hk : k = p
    · subst hk
      have hx : x = w := by simpa [mapFind] using h
      subst hx
      have hms : mapSet ((k, x) :: rest) k v = (k, v) :: rest := by
        simp [mapSet]
      rw [hms, List.filter_cons, List.filter_cons]
      rw [if_neg (by rw [hv]; simp), if_neg (by rw [hw]; simp)]
    · have h' : mapFind rest p = some w := by simpa [mapFind, hk] using h
      have hms : mapSet ((k, x) :: rest) p v = (k, x) :: mapSet rest p v := by
        simp [mapSet, hk]
      rw [hms, List.filter_cons, List.filter_cons,
        filter_mapSet_eq rest p v w h' P hw hv]

theorem reveal_stats_solved (s : ICPCSystem) (t : String)
    (hfz : (getPS (getTeam s t) (unfreezeProblemOf s t)).frozen = true)
    (hsol : (reveal_problem (getPS (getTeam s t) (unfreezeProblemOf s t))
      (getTeam s t).submissions (unfreezeProblemOf s t)).solved = true) :
    (calculate_team_stats (getTeam (revealState s t) t) false).solved_count =
      (calculate_team_stats (getTeam s t) false).solved_count + 1 := by
  have hfind := mapFind_of_getPS_frozen hfz
  rw [getTeam_revealState_self]
  simp only [calculate_team_stats]
  have key := filter_length_mapSet (getTeam s t).problems (unfreezeProblemOf s t)
    (reveal_problem (getPS (getTeam s t) (unfreezeProblemOf s t))
      (getTeam s t).submissions (unfreezeProblemOf s t))
    (getPS (getTeam s t) (unfreezeProblemOf s t)) hfind
    (fun q => statVisible false q.2)
  have h1 : statVisible false (getPS (getTeam s t) (unfreezeProblemOf s t)) = false := by
    simp [statVisible, hfz]
  have h2 : statVisible false (reveal_problem (getPS (getTeam s t) (unfreezeProblemOf s t))
      (getTeam s t).submissions (unfreezeProblemOf s t)) = true := by
    simp [statVisible, hsol, reveal_problem_frozen_false]
  simp only [h1, h2] at key
  simp at key
  omega

theorem reveal_stats_unsolved (s : ICPCSystem) (t : String)
    (hfz : (getPS (getTeam s t) (unfreezeProblemOf s t)).frozen = true)
    (hsol : (reveal_problem (getPS (getTeam s t) (unfreezeProblemOf s t))
      (getTeam s t).submissions (unfreezeProblemOf s t)).solved = false) :
    (calculate_team_stats (getTeam (revealState s t) t) false).solved_count =
        (calculate_team_stats (getTeam s t) false).solved_count ∧
      (calculate_team_stats (getTeam (revealState s t) t) false).penalty_time =
        (calculate_team_stats (getTeam s t) false).penalty_time ∧
      (calculate_team_stats (getTeam (revealState s t) t) false).solve_times =
        (calculate_team_stats (getTeam s t) false).solve_times := by
  have hfind := mapFind_of_getPS_frozen hfz
  rw [getTeam_revealState_self]
  have heq := filter_mapSet_eq (getTeam s t).problems (unfreezeProblemOf s t)
    (reveal_problem (getPS (getTeam s t) (unfreezeProblemOf s t))
      (getTeam s t).submissions (unfreezeProblemOf s t))
    (getPS (getTeam s t) (unfreezeProblemOf s t)) hfind
    (fun q => statVisible false q.2)
    (by simp [statVisible, hfz]) (by simp [statVisible, hsol])
  simp only [calculate_team_stats]
  rw [heq]
  exact ⟨rfl, rfl, rfl⟩

theorem cmpKey_sc_le {sc1 pt1 sc2 pt2 : Nat} {st1 st2 : List Nat} {n1 n2 : String}
    (h : cmpKey sc1 pt1 st1 n1 sc2 pt2 st2 n2 = true) : sc2 ≤ sc1 := by
  unfold cmpKey at h
  by_cases e : sc1 = sc2
  · omega
  · rw [if_pos e] at h
    simp only [decide_eq_true_eq] at h
    omega

theorem cmpKey_of_sc_lt {sc1 pt1 sc2 pt2 : Nat} {st1 st2 : List Nat} {n1 n2 : String}
    (h : sc2 < sc1) : cmpKey sc1 pt1 st1 n1 sc2 pt2 st2 n2 = true := by
  unfold cmpKey
  rw [if_pos (show sc1 ≠ sc2 by omega)]
  simp only [decide_eq_true_eq]
  omega

theorem step_cmp_mono (s : ICPCSystem) (t : String)
    (hfz : (getPS (getTeam s t) (unfreezeProblemOf s t)).frozen = true) :
    ∀ u, compare_teams (revealState s t) u t false = true →
      compare_teams s u t false = true := by
  intro u hu
  by_cases hut : u = t
  · subst hut
    rw [compare_teams_irrefl] at hu
    cases hu
  · have hgu : getTeam (revealState s t) u = getTeam s u :=
      getTeam_revealState_ne s t u (fun he => hut he.symm)
    by_cases hsol : (reveal_problem (getPS (getTeam s t) (unfreezeProblemOf s t))
        (getTeam s t).submissions (unfreezeProblemOf s t)).solved = true
    · have hsc := reveal_stats_solved s t hfz hsol
      rw [compare_teams_eq_cmpKey] at hu ⊢
      rw [hgu, hsc] at hu
      have hge := cmpKey_sc_le hu
      exact cmpKey_of_sc_lt (by omega)
    · have hstats := reveal_stats_unsolved s t hfz (Bool.eq_false_iff.mpr hsol)
      rw [compare_teams_eq_cmpKey] at hu ⊢
      rw [hgu, hstats.1, hstats.2.1, hstats.2.2] at hu
      exact hu

theorem step_rank_not_worse (s : ICPCSystem) (t : String)
    (hnd : s.team_order.Nodup) (hcons : rankConsistent s) (ht : t ∈ s.team_order)
    (hfz : (getPS (getTeam s t) (unfreezeProblemOf s t)).frozen = true) :
    (getTeam (flush_scoreboard (revealState s t)) t).ranking ≤ (getTeam s t).ranking := by
  have hnd1 : (revealState s t).team_order.Nodup := hnd
  have ht1 : t ∈ (revealState s t).team_order := ht
  rw [flush_rank _ hnd1 ht1, hcons t ht]
  show 1 + _ ≤ 1 + _
  have hmono := step_cmp_mono s t hfz
  exact Nat.add_le_add_left (List.countP_mono_left (fun u _ hu => hmono u hu)) 1

/-! ### Claim C4 -/

theorem C4_rank_monotone_counterexample :
    ¬claimC4Prop ∧
      (getTeam exFlushed "Bob").ranking = 1 ∧
      (getTeam exStep.1 "Bob").ranking = 2 := by
  refine ⟨?_, by decide, by decide⟩
  intro h
  have hstep : scroll_step exFlushed = some (exStep.1, exStep.2) := by decide
  have h2 := h exFlushed exStep.1 exStep.2 hstep "Bob" (by decide)
  rw [show (getTeam exStep.1 "Bob").ranking = 2 by decide,
    show (getTeam exFlushed "Bob").ranking = 1 by decide] at h2
  exact absurd h2 (by decide)

/-- C4 amended: during a scroll iteration only the team whose frozen result
is being revealed is guaranteed not to worsen: its rank after the
iteration's ranking pass is never numerically larger than before.  (As
stated, the claim fails: a displaced team's rank can grow, see the
counterexample.) -/
theorem C4_revealed_team_rank_not_worse (s s' : ICPCSystem) (t : String)
    (nt : Option Notification)
    (hnd : s.team_order.Nodup) (hcons : rankConsistent s)
    (hpwf : problemsWF s) (hfwf : frozenWF s)
    (hpick : pickLowest s (sortCmp (fun a b => compare_teams s a b false) s.team_order)
      = some t)
    (hstep : scroll_step s = some (s', nt)) :
    (getTeam s' t).ranking ≤ (getTeam s t).ranking := by
  obtain ⟨ht, hfz⟩ := pick_frozen s t hpwf hfwf hpick
  rw [scroll_step_state hpick hstep]
  exact step_rank_not_worse s t hnd hcons ht hfz

theorem C4_revealed_team_rank_not_worse_witness :
    (getTeam exStep.1 "Alice").ranking ≤ (getTeam exFlushed "Alice").ranking :=
  C4_revealed_team_rank_not_worse exFlushed exStep.1 "Alice" exStep.2
    (by decide) (by unfold rankConsistent; decide) (by unfold problemsWF; decide)
    (by unfold frozenWF; decide) (by decide) (by decide)

/-! ### Claim C5 -/

theorem flushRankValue_perm (s : ICPCSystem) (hnd : s.team_order.Nodup) :
    (s.team_order.map (flushRankValue s)).Perm
      (List.range' 1 s.team_order.length) := by
  have hperm := sortCmp_perm (fun a b => compare_teams s a b false) s.team_order
  have hndL := hperm.nodup_iff.mpr hnd
  have hP := @pairwise_sortCmp String (fun a b => compare_teams s a b false)
    s.team_order
    (fun _ _ _ _ _ _ h1 h2 => compare_teams_trans h1 h2)
    (fun _ _ _ _ hne => compare_teams_total hne) hnd
  have hmapeq : ∀ n ∈ s.team_order, flushRankValue s n =
      1 + (sortCmp (fun a b => compare_teams s a b false) s.team_order).indexOf n := by
    intro n hn
    unfold flushRankValue
    congr 1
    rw [← hperm.countP_eq]
    exact (pairwise_indexOf_eq_countP hP (fun _ _ _ _ h => compare_teams_asymm h)
      (hperm.mem_iff.mpr hn)).symm
  rw [List.map_congr_left hmapeq]
  have h2 := hperm.symm.map
    (fun n => 1 + (sortCmp (fun a b => compare_teams s a b false) s.team_order).indexOf n)
  refine h2.trans ?_
  rw [map_add_indexOf hndL 1, hperm.length_eq]

theorem countP_lt_of_mem {p : α → Bool} :
    ∀ {L : List α} {t : α}, t ∈ L → p t = false → L.countP p < L.length
  | [], t, ht, _ => absurd ht (List.not_mem_nil t)
  | a :: rest, t, ht, hp => by
    rcases List.mem_cons.mp ht with h1 | h1
    · subst h1
      rw [List.countP_cons_of_neg _ _ (by rw [hp]; simp)]
      have : List.countP p rest ≤ rest.length := List.countP_le_length p
      simp only [List.length_cons]
      omega
    · have hrec := countP_lt_of_mem h1 hp
      rw [List.countP_cons]
      simp only [List.length_cons]
      by_cases hpa : p a = true
      · rw [if_pos hpa]
        omega
      · rw [if_neg hpa]
        omega

theorem flushRankValue_le (s : ICPCSystem) {t : String} (ht : t ∈ s.team_order) :
    flushRankValue s t ≤ s.team_order.length := by
  unfold flushRankValue
  have : s.team_order.countP (fun m => compare_teams s m t false) < s.team_order.length :=
    countP_lt_of_mem ht (compare_teams_irrefl s t false)
  omega

theorem replaced_find (s : ICPCSystem) (t : String) (r : Nat)
    (hnd : s.team_order.Nodup) (hcons : rankConsistent s)
    (h1 : 1 ≤ r) (h2 : r ≤ s.team_order.length) (hne : ¬r = flushRankValue s t) :
    ∃ u, ((sortCmp (fun a b => compare_teams s a b false) s.team_order).find? (fun n =>
        decide ((getTeam s n).ranking = r ∧ ¬n = t))) = some u ∧
      u ∈ s.team_order ∧ ¬u = t ∧ (getTeam s u).ranking = r := by
  have hperm2 := flushRankValue_perm s hnd
  have hmem : r ∈ List.range' 1 s.team_order.length := by
    rw [List.mem_range']
    exact ⟨r - 1, by omega, by omega⟩
  have hmap : r ∈ s.team_order.map (flushRankValue s) := hperm2.mem_iff.mpr hmem
  obtain ⟨u0, hu0mem, hu0⟩ := List.mem_map.mp hmap
  have hu0t : ¬u0 = t := fun he => hne (by rw [← hu0, he])
  have hpred : (fun n => decide ((getTeam s n).ranking = r ∧ ¬n = t)) u0 = true := by
    simp only [decide_eq_true_eq]
    exact ⟨by rw [hcons u0 hu0mem, hu0], hu0t⟩
  have hsomeF : (((sortCmp (fun a b => compare_teams s a b false) s.team_order).find?
      (fun n => decide ((getTeam s n).ranking = r ∧ ¬n = t)))).isSome = true := by
    rw [List.find?_isSome]
    exact ⟨u0, (sortCmp_perm _ _).mem_iff.mpr hu0mem, hpred⟩
  obtain ⟨u, hu⟩ := Option.isSome_iff_exists.mp hsomeF
  have hprop := List.find?_some hu
  simp only [decide_eq_true_eq] at hprop
  have humem : u ∈ s.team_order :=
    (sortCmp_perm _ _).mem_iff.mp (List.mem_of_find?_eq_some hu)
  exact ⟨u, hu, humem, hprop.2, hprop.1⟩

/-- C5: in a scroll iteration, a rank-change notification is emitted exactly
when the revealed team's rank numerically decreased from the pre-reveal to
the post-reveal ranking, and it names the improving team, a pre-reveal
holder of the improving team's post-reveal rank other than the improving
team itself (unique by the rank bijection), and the improving team's
solved count and penalty time recomputed in exclude-frozen mode on the
post-reveal state. -/
theorem C5_rank_change_notification (s s' : ICPCSystem) (t : String)
    (nt : Option Notification)
    (hnd : s.team_order.Nodup) (hcons : rankConsistent s)
    (hpwf : problemsWF s) (hfwf : frozenWF s)
    (hpick : pickLowest s (sortCmp (fun a b => compare_teams s a b false) s.team_order)
      = some t)
    (hstep : scroll_step s = some (s', nt)) :
    (nt.isSome = true ↔ (getTeam s' t).ranking < (getTeam s t).ranking) ∧
      ∀ n, nt = some n →
        n.team = t ∧
          n.replaced ∈ s.team_order ∧
          ¬n.replaced = t ∧
          (getTeam s n.replaced).ranking = (getTeam s' t).ranking ∧
          n.solved_count = (calculate_team_stats (getTeam s' t) false).solved_count ∧
          n.penalty_time = (calculate_team_stats (getTeam s' t) false).penalty_time := by
  obtain ⟨ht, hfz⟩ := pick_frozen s t hpwf hfwf hpick
  have hs' := scroll_step_state hpick hstep
  subst hs'
  rw [scroll_step_eq hpick] at hstep
  by_cases hlt : (getTeam (flush_scoreboard (revealState s t)) t).ranking <
      (getTeam s t).ranking
  · rw [if_pos hlt] at hstep
    injection hstep with hpair
    injection hpair with hfst hnt
    have hnew1 : 1 ≤ (getTeam (flush_scoreboard (revealState s t)) t).ranking := by
      rw [flush_rank (revealState s t) hnd ht]
      unfold flushRankValue
      omega
    have hnewN : (getTeam (flush_scoreboard (revealState s t)) t).ranking ≤
        s.team_order.length := by
      rw [flush_rank (revealState s t) hnd ht]
      exact flushRankValue_le (revealState s t) ht
    have hnewne : ¬(getTeam (flush_scoreboard (revealState s t)) t).ranking =
        flushRankValue s t := by
      rw [← hcons t ht]
      omega
    obtain ⟨u, hufind, humem, hut, hurank⟩ := replaced_find s t
      (getTeam (flush_scoreboard (revealState s t)) t).ranking hnd hcons hnew1 hnewN hnewne
    refine ⟨⟨fun _ => hlt, fun _ => by rw [← hnt]; rfl⟩, ?_⟩
    intro n hn
    rw [← hnt] at hn
    have hn' := Option.some.inj hn
    rw [← hn']
    refine ⟨rfl, ?_, ?_, ?_, rfl, rfl⟩
    · show ((sortCmp (fun a b => compare_teams s a b false) s.team_order).find? (fun n =>
        decide ((getTeam s n).ranking =
          (getTeam (flush_scoreboard (revealState s t)) t).ranking ∧ ¬n = t))).getD ""
        ∈ s.team_order
      rw [hufind]
      exact humem
    · show ¬((sortCmp (fun a b => compare_teams s a b false) s.team_order).find? (fun n =>
        decide ((getTeam s n).ranking =
          (getTeam (flush_scoreboard (revealState s t)) t).ranking ∧ ¬n = t))).getD "" = t
      rw [hufind]
      exact hut
    · show (getTeam s (((sortCmp (fun a b => compare_teams s a b false) s.team_order).find?
        (fun n => decide ((getTeam s n).ranking =
          (getTeam (flush_scoreboard (revealState s t)) t).ranking ∧ ¬n = t))).getD "")).ranking
        = (getTeam (flush_scoreboard (revealState s t)) t).ranking
      rw [hufind]
      exact hurank
  · rw [if_neg hlt] at hstep
    injection hstep with hpair
    injection hpair with hfst hnt
    constructor
    · constructor
      · intro hcontr
        rw [← hnt] at hcontr
        cases hcontr
      · intro hcontr
        exact absurd hcontr hlt
    · intro n hn
      rw [← hnt] at hn
      cases hn

/-! ### Claim C7 -/

theorem frozenTotal_flush (u : ICPCSystem) :
    frozenTotal (flush_scoreboard u) = frozenTotal u := by
  unfold frozenTotal
  have horder : (flush_scoreboard u).team_order = u.team_order := rfl
  rw [horder]
  congr 1
  refine List.map_congr_left ?_
  intro n _
  unfold frozenCount
  rw [getTeam_flush_problems]

theorem sum_map_update {f g : String → Nat} :
    ∀ {L : List String}, L.Nodup → ∀ {t : String}, t ∈ L →
    (∀ n ∈ L, n ≠ t → g n = f n) → g t + 1 = f t →
    (L.map g).sum + 1 = (L.map f).sum
  | [], _, t, ht, _, _ => absurd ht (List.not_mem_nil t)
  | a :: rest, hnd, t, ht, hcong, hupd => by
    rcases List.nodup_cons.mp hnd with ⟨hna, hnd'⟩
    rcases List.mem_cons.mp ht with h1 | h1
    · subst h1
      have hrest : rest.map g = rest.map f :=
        List.map_congr_left
          (fun n hn => hcong n (by simp [hn]) (fun he => hna (by rw [← he]; exact hn)))
      simp only [List.map_cons, List.sum_cons]
      rw [hrest]
      omega
    · have ha : a ≠ t := fun he => hna (by rw [he]; exact h1)
      have hga : g a = f a := hcong a (by simp) ha
      simp only [List.map_cons, List.sum_cons]
      rw [hga]
      have := sum_map_update hnd' h1 (fun n hn hne => hcong n (by simp [hn]) hne) hupd
      omega

theorem keys_mapSet_of_found {β} : ∀ (m : List (String × β)) (p : String) (v w : β),
    mapFind m p = some w → (mapSet m p v).map Prod.fst = m.map Prod.fst
  | [], _, _, _, h => by simp [mapFind] at h
  | (k, x) :: rest, p, v, w, h => by
    by_cases hk : k = p
    · subst hk
      simp [mapSet]
    · have h' : mapFind rest p = some w := by simpa [mapFind, hk] using h
      simp only [mapSet, if_neg hk, List.map_cons]
      rw [keys_mapSet_of_found rest p v w h']

theorem mem_mapSet {β} : ∀ {m : List (String × β)} {p : String} {v : β} {e : String × β},
    e ∈ mapSet m p v → e = (p, v) ∨ e ∈ m
  | [], p, v, e, he => by
    simp only [mapSet] at he
    rcases List.mem_cons.mp he with h1 | h1
    · exact Or.inl h1
    · exact absurd h1 (List.not_mem_nil e)
  | (k, x) :: rest, p, v, e, he => by
    by_cases hk : k = p
    · subst hk
      simp only [mapSet, if_pos rfl] at he
      rcases List.mem_cons.mp he with h1 | h1
      · exact Or.inl h1
      · exact Or.inr (List.mem_cons_of_mem _ h1)
    · simp only [mapSet, if_neg hk] at he
      rcases List.mem_cons.mp he with h1 | h1
      · exact Or.inr (by rw [h1]; simp)
      · rcases mem_mapSet h1 with h2 | h2
        · exact Or.inl h2
        · exact Or.inr (List.mem_cons_of_mem _ h2)

theorem step_frozen_decrement (s : ICPCSystem) (t : String)
    (hnd : s.team_order.Nodup) (hpwf : problemsWF s) (hfwf : frozenWF s)
    (hpick : pickLowest s (sortCmp (fun a b => compare_teams s a b false) s.team_order)
      = some t) :
    frozenTotal (flush_scoreboard (revealState s t)) + 1 = frozenTotal s := by
  obtain ⟨ht, hfz⟩ := pick_frozen s t hpwf hfwf hpick
  have hfind := mapFind_of_getPS_frozen hfz
  rw [frozenTotal_flush]
  unfold frozenTotal
  have horder : (revealState s t).team_order = s.team_order := rfl
  rw [horder]
  refine sum_map_update hnd ht ?_ ?_
  · intro n _ hnt
    rw [getTeam_revealState_ne s t n (fun he => hnt (he.symm))]
  · rw [getTeam_revealState_self]
    unfold frozenCount
    have key := filter_length_mapSet (getTeam s t).problems (unfreezeProblemOf s t)
      (reveal_problem (getPS (getTeam s t) (unfreezeProblemOf s t))
        (getTeam s t).submissions (unfreezeProblemOf s t))
      (getPS (getTeam s t) (unfreezeProblemOf s t)) hfind (fun q => q.2.frozen)
    simp only [hfz, reveal_problem_frozen_false] at key
    simp at key
    show ((mapSet (getTeam s t).problems (unfreezeProblemOf s t)
      (reveal_problem (getPS (getTeam s t) (unfreezeProblemOf s t))
        (getTeam s t).submissions (unfreezeProblemOf s t))).filter
          (fun q => q.2.frozen)).length + 1 =
      ((getTeam s t).problems.filter (fun q => q.2.frozen)).length
    omega

theorem step_preserves_wf (s : ICPCSystem) (t : String)
    (hpwf : problemsWF s) (hfwf : frozenWF s)
    (hpick : pickLowest s (sortCmp (fun a b => compare_teams s a b false) s.team_order)
      = some t) :
    problemsWF (flush_scoreboard (revealState s t)) ∧
      frozenWF (flush_scoreboard (revealState s t)) := by
  obtain ⟨ht, hfz⟩ := pick_frozen s t hpwf hfwf hpick
  have hfind := mapFind_of_getPS_frozen hfz
  constructor
  · intro n hn
    have hn' : n ∈ s.team_order := hn
    rw [getTeam_flush_problems]
    by_cases hnt : t = n
    · subst hnt
      rw [getTeam_revealState_self]
      show ((mapSet (getTeam s t).problems _ _).map Prod.fst).Nodup
      rw [keys_mapSet_of_found _ _ _ _ hfind]
      exact hpwf t ht
    · rw [getTeam_revealState_ne s t n hnt]
      exact hpwf n hn'
  · intro n hn e he hef
    have hn' : n ∈ s.team_order := hn
    show e.1 ∈ s.problem_names
    rw [getTeam_flush_problems] at he
    by_cases hnt : t = n
    · subst hnt
      rw [getTeam_revealState_self] at he
      rcases mem_mapSet he with h1 | h1
      · rw [h1] at hef
        rw [reveal_problem_frozen_false] at hef
        cases hef
      · exact hfwf t ht e h1 hef
    · rw [getTeam_revealState_ne s t n hnt] at he
      exact hfwf n hn' e he hef

theorem frozenCount_zero {t : Team} (h : hasFrozen t = false) : frozenCount t = 0 := by
  unfold frozenCount
  rw [List.length_eq_zero, List.filter_eq_nil]
  exact List.any_eq_false.mp h

theorem scroll_loop_completes :
    ∀ (fuel : Nat) (s : ICPCSystem) (acc : List Notification),
    s.team_order.Nodup → problemsWF s → frozenWF s → frozenTotal s < fuel →
    (scroll_loop fuel s acc).2.2 = true ∧
      (scroll_loop fuel s acc).1.team_order = s.team_order ∧
      (∀ n ∈ s.team_order, frozenCount (getTeam (scroll_loop fuel s acc).1 n) = 0)
  | 0, s, acc, _, _, _, hlt => absurd hlt (by omega)
  | fuel + 1, s, acc, hnd, hpwf, hfwf, hlt => by
    simp only [scroll_loop]
    cases hstep : scroll_step s with
    | none =>
      refine ⟨rfl, rfl, ?_⟩
      intro n hn
      have hpick := scroll_step_none_pick hstep
      unfold pickLowest at hpick
      have hnone := List.find?_eq_none.mp hpick n (by
        rw [List.mem_reverse]
        exact (sortCmp_perm _ _).mem_iff.mpr hn)
      exact frozenCount_zero (Bool.eq_false_iff.mpr hnone)
    | some pr =>
      obtain ⟨s', nt⟩ := pr
      cases hpick : pickLowest s (sortCmp (fun a b => compare_teams s a b false)
          s.team_order) with
      | none =>
        have hcontr : scroll_step s = none := by
          simp only [scroll_step, hpick]
        rw [hcontr] at hstep
        cases hstep
      | some t =>
        have hs' : s' = flush_scoreboard (revealState s t) := scroll_step_state hpick hstep
        subst hs'
        have hdec := step_frozen_decrement s t hnd hpwf hfwf hpick
        obtain ⟨hpwf2, hfwf2⟩ := step_preserves_wf s t hpwf hfwf hpick
        have hnd2 : (flush_scoreboard (revealState s t)).team_order.Nodup := hnd
        have IH := scroll_loop_completes fuel (flush_scoreboard (revealState s t))
          (acc ++ nt.toList) hnd2 hpwf2 hfwf2 (by omega)
        exact ⟨IH.1, IH.2.1, fun n hn => IH.2.2 n hn⟩

theorem length_filter_map {β} (f : α → β) (P : β → Bool) (Q : α → Bool)
    (h : ∀ a, P (f a) = Q a) :
    ∀ l : List α, ((l.map f).filter P).length = (l.filter Q).length
  | [] => rfl
  | a :: rest => by
    simp only [List.map_cons, List.filter_cons, h a]
    by_cases hq : Q a = true
    · rw [if_pos hq, if_pos hq]
      simp only [List.length_cons]
      rw [length_filter_map f P Q h rest]
    · rw [if_neg hq, if_neg hq]
      exact length_filter_map f P Q h rest

theorem mapFind_reset : ∀ (tm : List (String × Team)) (n : String),
    mapFind (resetAfterFreezeCounts tm) n = (mapFind tm n).map resetTeamCounts
  | [], _ => rfl
  | (k, v) :: rest, n => by
    simp only [resetAfterFreezeCounts, List.map_cons, mapFind]
    by_cases hk : k = n
    · rw [if_pos hk, if_pos hk]
      rfl
    · rw [if_neg hk, if_neg hk]
      exact mapFind_reset rest n

theorem frozenCount_reset_getTeam (tm : List (String × Team)) (n : String) :
    frozenCount (mapGetD (resetAfterFreezeCounts tm) n ({} : Team)) =
      frozenCount (mapGetD tm n ({} : Team)) := by
  rw [mapGetD, mapFind_reset, mapGetD]
  cases mapFind tm n with
  | none => rfl
  | some v =>
    show frozenCount (resetTeamCounts v) = frozenCount v
    unfold frozenCount resetTeamCounts
    exact length_filter_map _ _ _ (fun a => rfl) v.problems

theorem reset_counters_zero (tm : List (String × Team)) :
    ∀ e ∈ resetAfterFreezeCounts tm, ∀ q ∈ e.2.problems,
      q.2.submissions_after_freeze = 0 := by
  intro e he q hq
  obtain ⟨e0, _, he0⟩ := List.mem_map.mp he
  rw [← he0] at hq
  simp only [resetTeamCounts] at hq
  obtain ⟨q0, _, hq0⟩ := List.mem_map.mp hq
  rw [← hq0]

/-- C7: from any well-formed frozen state, scroll terminates: each loop
iteration clears the frozen flag of exactly one problem entry and sets
none (the total frozen count drops by exactly one), the fuelled loop
genuinely reaches its exit with `frozenTotal + 1` iterations available, and
the final state has freeze mode cleared, every frozen-window attempt
counter reset to zero, and no registered team holding a frozen problem. -/
theorem C7_scroll_terminates (s : ICPCSystem) (hfz : s.is_frozen = true)
    (hnd : s.team_order.Nodup) (hpwf : problemsWF s) (hfwf : frozenWF s) :
    (∀ (u u' : ICPCSystem) (t : String) (nt : Option Notification),
      u.team_order.Nodup → problemsWF u → frozenWF u →
      pickLowest u (sortCmp (fun a b => compare_teams u a b false) u.team_order) = some t →
      scroll_step u = some (u', nt) → frozenTotal u' + 1 = frozenTotal u) ∧
      (scroll s).isSome = true ∧
      (∀ s3 notifs completed, scroll s = some (s3, notifs, completed) →
        completed = true ∧
          s3.is_frozen = false ∧
          (∀ e ∈ s3.teams, ∀ q ∈ e.2.problems, q.2.submissions_after_freeze = 0) ∧
          (∀ n ∈ s.team_order, frozenCount (getTeam s3 n) = 0)) := by
  have hcond : ¬s.is_frozen = false := by
    rw [hfz]
    simp
  refine ⟨?_, ?_, ?_⟩
  · intro u u' t nt hnd' hpwf' hfwf' hpick' hstep'
    rw [scroll_step_state hpick' hstep']
    exact step_frozen_decrement u t hnd' hpwf' hfwf' hpick'
  · rw [scroll, if_neg hcond]
    rfl
  · intro s3 notifs completed hsc
    rw [scroll, if_neg hcond] at hsc
    injection hsc with htriple
    injection htriple with hst hrest
    injection hrest with hnotifs hcompleted
    have hpwf1 : problemsWF (flush_scoreboard s) := by
      intro n hn
      rw [getTeam_flush_problems]
      exact hpwf n hn
    have hfwf1 : frozenWF (flush_scoreboard s) := by
      intro n hn e he hef
      rw [getTeam_flush_problems] at he
      exact hfwf n hn e he hef
    have hloop := scroll_loop_completes (frozenTotal (flush_scoreboard s) + 1)
      (flush_scoreboard s) [] hnd hpwf1 hfwf1 (by omega)
    refine ⟨by rw [← hcompleted]; exact hloop.1, by rw [← hst], ?_, ?_⟩
    · rw [← hst]
      exact reset_counters_zero _
    · intro n hn
      rw [← hst]
      show frozenCount (mapGetD (resetAfterFreezeCounts
        (scroll_loop (frozenTotal (flush_scoreboard s) + 1)
          (flush_scoreboard s) []).1.teams) n ({} : Team)) = 0
      rw [frozenCount_reset_getTeam]
      exact hloop.2.2 n hn

theorem C7_scroll_terminates_witness :
    (scroll exFrozen).isSome = true ∧
      (∀ s3 notifs completed, scroll exFrozen = some (s3, notifs, completed) →
        completed = true) := by
  have h := C7_scroll_terminates exFrozen (by decide) (by decide)
    (by unfold problemsWF; decide) (by unfold frozenWF; decide)
  exact ⟨h.2.1, fun s3 notifs completed hsc => (h.2.2 s3 notifs completed hsc).1⟩

theorem C5_rank_change_notification_witness :
    exStep.2.isSome = true ∧
      (∀ n, exStep.2 = some n → n.team = "Alice" ∧ ¬n.replaced = "Alice") := by
  have h := C5_rank_change_notification exFlushed exStep.1 "Alice" exStep.2
    (by decide) (by unfold rankConsistent; decide) (by unfold problemsWF; decide)
    (by unfold frozenWF; decide) (by decide) (by decide)
  refine ⟨h.1.mpr (by decide), ?_⟩
  intro n hn
  exact ⟨(h.2 n hn).1, (h.2 n hn).2.2.1⟩

end ICPC
